import Mathlib

/-!
Verification of the PennMUSH name-matching resolver (`src/generic/match.c`).

The resolver is embedded shallowly: the matching state (`struct match_context`)
becomes the structure `MC`, the externally-owned entity graph and the external
collaborator predicates (`controls`, `can_interact`, `could_doit`,
`string_match`, `check_alias`, `lookup_player`, attribute iteration, ...)
become fields of a `World` record, and each C function becomes a Lean
function of the same name over `World` and `MC`.  Machine integers are
modelled as `Int`/`Nat` (no arithmetic in the source overflows), dbrefs as
`Int` with the reserved sentinels `NOTHING = -1` and `AMBIGUOUS = -2`, and
the flag bitmask as a record of `Bool`s (one field per `MAT_` bit used by the
source).  Linked-list traversal (`DOLIST` over `Next` pointers) is modelled
by a `World` function giving the finite visit sequence of a chain head, which
is exactly what the macro consumes.
-/

namespace PennMatch

/-! ### Character helpers (C library semantics: ASCII tolower / isdigit / isspace) -/

/-- ASCII `tolower`, as used by `strcasecmp`/`strncasecmp` in the C locale. -/
def lowerc (c : Char) : Char :=
  if 65 ≤ c.toNat ∧ c.toNat ≤ 90 then Char.ofNat (c.toNat + 32) else c

/-- ASCII `isdigit`. -/
def isDigitc (c : Char) : Bool := decide (48 ≤ c.toNat ∧ c.toNat ≤ 57)

/-- ASCII `isspace` (space, tab, newline, vertical tab, form feed, carriage return). -/
def isSpacec (c : Char) : Bool := decide ((9 ≤ c.toNat ∧ c.toNat ≤ 13) ∨ c.toNat = 32)

/-- Case-insensitive equality of character lists: `strcasecmp(a, b) == 0`. -/
def ciEq (a b : List Char) : Bool := a.map lowerc == b.map lowerc

/-- Shorthand turning a string literal into the character list we compute on. -/
def cs (s : String) : List Char := s.data

/-- Case-insensitive prefix test: `strncasecmp(s, p, |p|) == 0`. -/
def isCiPrefix (p s : List Char) : Bool := ciEq p (s.take p.length)

/-- Skip leading space characters: the `while (**name == ' ') (*name)++;` loops. -/
def skipSpaces (l : List Char) : List Char := l.dropWhile (fun c => c = ' ')

/-- Exact numeral value of a digit run (the mathematical value of the token
handed to `strtoul`). -/
def digitsVal (l : List Char) : Nat := l.foldl (fun a c => a * 10 + (c.toNat - 48)) 0

/-- `strtoul` on the digit token: the exact value, saturated at `ULONG_MAX`
on overflow (C99 7.20.1.4), with the 64-bit `unsigned long` of the LP64
platform the server targets. -/
def strtoulVal (v : Nat) : Nat := min v (2 ^ 64 - 1)

/-- The assignment `int count = strtoul(...)` of match.c line 702: the
`unsigned long` result is converted to a 32-bit `int` by reduction mod 2^32
read as two's complement (the gcc/clang behaviour for this
implementation-defined conversion), so e.g. "4294967297" yields 1. -/
def countWrap (v : Nat) : Int :=
  if strtoulVal v % 2 ^ 32 < 2 ^ 31 then ((strtoulVal v % 2 ^ 32 : Nat) : Int)
  else ((strtoulVal v % 2 ^ 32 : Nat) : Int) - 2 ^ 32

/-! ### Dbref sentinels and type bits (match.h / dbdefs.h constants) -/

def NOTHING : Int := -1
def AMBIGUOUS : Int := -2

def TYPE_ROOM : Nat := 1
def TYPE_THING : Nat := 2
def TYPE_EXIT : Nat := 4
def TYPE_PLAYER : Nat := 8
def TYPE_GARBAGE : Nat := 16
def NOTYPE : Nat := 65535

/-! ### Option flags

The `MAT_` bits are opaque distinct bits defined in `match.h`; a bitmask over
distinct named bits is represented isomorphically as a record of `Bool`s.
`*flags &= ~(A|B)` becomes clearing the corresponding fields. -/

structure MFlags where
  check_keys : Bool := false
  global : Bool := false
  remotes : Bool := false
  near : Bool := false
  control : Bool := false
  me : Bool := false
  here : Bool := false
  absolute : Bool := false
  pmatch : Bool := false
  player : Bool := false
  neighbor : Bool := false
  possession : Bool := false
  exit : Bool := false
  carried_exit : Bool := false
  container : Bool := false
  remote_contents : Bool := false
  english : Bool := false
  mtype : Bool := false
  matExact : Bool := false
  noisy : Bool := false
  last : Bool := false
  contents : Bool := false
deriving DecidableEq, Repr

/-! ### The world: the externally-owned entity graph and collaborator predicates -/

/-- One attribute as handed to `match_attr_helper` by the external iterator
`atr_iter_get_parent(GOD, obj, "GENERIC`*", ...)`: its name and its value. -/
structure AttrRec where
  aname : List Char
  avalue : List Char
deriving DecidableEq, Repr

structure World where
  /-- `GoodObject(x)` is `0 <= x < db_top`. -/
  dbTop : Int
  /-- `Typeof(x)`. -/
  typeof : Int → Nat
  /-- `Name(x)`. -/
  name : Int → List Char
  /-- value of the `ALIAS` attribute, when present (`atr_get_noparent(x, "ALIAS")`). -/
  aliasAttr : Int → Option (List Char)
  /-- `check_alias(command, list)` from game.c (external). -/
  checkAlias : List Char → List Char → Bool
  /-- `string_match(name, text)` from strutil.c (external loose/substring match). -/
  stringMatch : List Char → List Char → Bool
  /-- the finite `DOLIST` visit sequence of the `Next`-chain starting at a dbref. -/
  listFrom : Int → List Int
  /-- `Contents(x)`: head of the contents chain. -/
  firstContents : Int → Int
  /-- `Exits(x)`: head of the exits chain. -/
  firstExit : Int → Int
  /-- `Location(x)`. -/
  location : Int → Int
  /-- `Source(x)` for exits. -/
  source : Int → Int
  /-- `Zone(x)`. -/
  zone : Int → Int
  /-- the `MASTER_ROOM` configuration dbref. -/
  masterRoom : Int
  /-- `controls(who, x)` (external permission predicate). -/
  controls : Int → Int → Bool
  /-- `can_interact(x, who, INTERACT_MATCH, NULL)` (external). -/
  canInteract : Int → Int → Bool
  /-- `could_doit(who, x, NULL)` (external lock predicate). -/
  couldDoit : Int → Int → Bool
  /-- `lookup_player(name)` (external). -/
  lookupPlayer : List Char → Int
  /-- `visible_short_page(who, name)` (external). -/
  visibleShortPage : Int → List Char → Int
  /-- `parse_objid(xname)` (external). -/
  parseObjid : List Char → Int
  /-- `parse_dbref(s)` (external). -/
  parseDbref : List Char → Int
  /-- `parse_integer(s)` (external). -/
  parseInteger : List Char → Int
  /-- `Long_Fingers(who)` (external power check). -/
  longFingers : Int → Bool
  /-- `nearby(who, x)` (external). -/
  nearby : Int → Int → Bool
  /-- `has_flag_by_name(x, "GENERIC", TYPE_THING)` (external flag query). -/
  hasGenericFlag : Int → Bool
  /-- the attribute list yielded by `atr_iter_get_parent(GOD, x, "GENERIC`*", ...)`. -/
  genericAttrs : Int → List AttrRec

def GoodObject (w : World) (x : Int) : Bool := decide (0 ≤ x ∧ x < w.dbTop)

def IsGarbageB (w : World) (x : Int) : Bool := decide (w.typeof x = TYPE_GARBAGE)

def RealGoodObject (w : World) (x : Int) : Bool := GoodObject w x && !IsGarbageB w x

def IsRoomB (w : World) (x : Int) : Bool := decide (w.typeof x = TYPE_ROOM)

def IsExitB (w : World) (x : Int) : Bool := decide (w.typeof x = TYPE_EXIT)

def IsPlayerB (w : World) (x : Int) : Bool := decide (w.typeof x = TYPE_PLAYER)

/-! ### The resolution state: `struct match_context` -/

structure MC where
  /-- `match`: object currently being checked. -/
  mtch : Int
  /-- `bestmatch`: best match found so far. -/
  bestmatch : Int
  /-- `abs`: `xname` parsed as a dbref/objid. -/
  abs : Int
  who : Int
  wher : Int
  flags : MFlags
  /-- `type`: preferred type bitmask. -/
  typ : Nat
  /-- `final`: the Xth object wanted with english matching (0 when unranked). -/
  final : Nat
  /-- `curr`: number of matches found so far. -/
  curr : Nat
  nocontrol : Bool
  /-- `right_type`: number of preferred-type objects counted. -/
  right_type : Nat
  /-- `exact`: set once a full (exact) match has been found. -/
  exact : Bool
  done : Bool
  /-- `name`: text to match, after english adjectives are stripped. -/
  name : List Char
deriving DecidableEq, Repr

/-- The `MATCH_TYPE` macro, used as a truthiness test: nonzero (keep going)
unless the type bits do not intersect and `MAT_TYPE` is set. -/
def okType (w : World) (typ : Nat) (f : MFlags) (x : Int) : Bool :=
  decide (typ &&& w.typeof x ≠ 0) || !f.mtype

/-- The `MATCH_CONTROLS` macro. -/
def ctrlOk (w : World) (f : MFlags) (who x : Int) : Bool :=
  !f.control || w.controls who x

/-- Exact name match of `match.c` lines 342-343: registered aliases, or (for
non-exits) case-insensitive full-name equality.  `match_aliases` is lines
419-437 of the source. -/
def match_aliases (w : World) (x : Int) (nm : List Char) : Bool :=
  if !IsPlayerB w x && !IsExitB w x then false
  else if IsExitB w x && w.checkAlias nm (w.name x) then true
  else
    match w.aliasAttr x with
    | none => false
    | some v => w.checkAlias nm v

def exactName (w : World) (x : Int) (nm : List Char) : Bool :=
  match_aliases w x nm || (!IsExitB w x && ciEq (w.name x) nm)

/-- The loose (substring) name test of lines 346-347, without the state guards. -/
def looseName (w : World) (x : Int) (nm : List Char) : Bool :=
  !IsExitB w x && w.stringMatch (w.name x) nm

/-! ### choose_thing (lines 356-397) -/

/-- Tie-breaker between the current best and a new candidate.  The C nesting
is flattened: inside the type block control either returns `thing1`/`thing2`
or falls through to the keys block, which either returns or falls through to
the final `return thing2`. -/
def choose_thing (w : World) (who : Int) (typ : Nat) (f : MFlags) (t1 t2 : Int) : Int :=
  if !GoodObject w t1 && !GoodObject w t2 then
    if t1 = NOTHING then t2 else t1
  else if !GoodObject w t1 then t2
  else if !GoodObject w t2 then t1
  else if typ ≠ NOTYPE ∧ w.typeof t1 &&& typ ≠ 0 ∧ w.typeof t2 &&& typ = 0 then t1
  else if typ ≠ NOTYPE ∧ w.typeof t1 &&& typ = 0 ∧ w.typeof t2 &&& typ ≠ 0 then t2
  else if f.check_keys ∧ ¬w.couldDoit who t1 ∧ w.couldDoit who t2 then t2
  else if f.check_keys ∧ w.couldDoit who t1 ∧ ¬w.couldDoit who t2 then t1
  else t2

/-! ### matched (lines 210-253) -/

/-- One accepted candidate is folded into the state.  Returns
`(we are done, new state)`; the C function returns 1 exactly when matching
should stop. -/
def matched (w : World) (full : Bool) (mc : MC) : Bool × MC :=
  if !ctrlOk w mc.flags mc.who mc.mtch then
    (false, { mc with nocontrol := true })
  else if mc.final = 0 then
    let b := choose_thing w mc.who mc.typ mc.flags mc.bestmatch mc.mtch
    if b ≠ mc.mtch then (false, { mc with bestmatch := b })
    else
      let mc1 : MC :=
        if full then
          if mc.exact then { mc with bestmatch := b, curr := mc.curr + 1 }
          else { mc with bestmatch := b, exact := true, curr := 1, right_type := 0 }
        else { mc with bestmatch := b, curr := mc.curr + 1 }
      if mc1.typ ≠ NOTYPE ∧ w.typeof mc1.bestmatch &&& mc1.typ ≠ 0 then
        (false, { mc1 with right_type := mc1.right_type + 1 })
      else (false, mc1)
  else
    if mc.curr + 1 = mc.final then
      (true, { mc with curr := mc.curr + 1, bestmatch := mc.mtch, done := true })
    else
      (false, { mc with curr := mc.curr + 1 })

/-! ### match_obj_list (lines 326-354) -/

/-- The `DOLIST` body of `match_obj_list`.  `MATCHED(full)` breaks out of the
loop when `matched` returns 1 (after which `match_obj_list` returns and every
later pool call sees `mc.done` and is a no-op), else continues. -/
def matchObjLoop (w : World) (l : List Int) (mc : MC) : MC :=
  match l with
  | [] => mc
  | x :: rest =>
    let mc := { mc with mtch := x }
    if !okType w mc.typ mc.flags x then matchObjLoop w rest mc
    else if x = mc.abs then
      let r := matched w true mc
      if r.1 then r.2 else matchObjLoop w rest r.2
    else if !w.canInteract x mc.who then matchObjLoop w rest mc
    else if exactName w x mc.name then
      let r := matched w true mc
      if r.1 then r.2 else matchObjLoop w rest r.2
    else if !mc.flags.matExact && (!mc.exact || !GoodObject w mc.bestmatch)
            && looseName w x mc.name then
      let r := matched w false mc
      if r.1 then r.2 else matchObjLoop w rest r.2
    else matchObjLoop w rest mc

def match_obj_list (w : World) (l : List Int) (mc : MC) : MC :=
  if mc.done then mc else matchObjLoop w l mc

/-! ### match_attr_helper / match_attr_list (lines 255-321) -/

/-- Attribute-name decoding of lines 267-269: `strsep` cuts at the first
backtick, and the external `parse_dbref` reads what follows. -/
def afterTick (s : List Char) : List Char := (s.dropWhile (fun c => c ≠ '`')).drop 1

def decodeAttr (w : World) (a : AttrRec) : Int := w.parseDbref (afterTick a.aname)

/-- Body of the callback handed to `atr_iter_get_parent`; the iterator keeps
calling it for every matching attribute regardless of its return value, so
only the state update matters. -/
def match_attr_helper (w : World) (mc : MC) (a : AttrRec) : MC :=
  if mc.done then mc
  else
    let obj := decodeAttr w a
    if !RealGoodObject w obj || !w.hasGenericFlag obj then mc
    else if w.parseInteger a.avalue ≤ 0 then mc
    else
      let mc := { mc with mtch := obj }
      if !okType w mc.typ mc.flags obj then mc
      else if obj = mc.abs then (matched w true mc).2
      else if !w.canInteract obj mc.who then mc
      else if exactName w obj mc.name then (matched w true mc).2
      else if !mc.flags.matExact && (!mc.exact || !GoodObject w mc.bestmatch)
              && looseName w obj mc.name then (matched w false mc).2
      else mc

def match_attr_list (w : World) (l : List AttrRec) (mc : MC) : MC :=
  if mc.done then mc else l.foldl (match_attr_helper w) mc

/-! ### The pool walk of match_result_internal (lines 565-599)

`MATCH_LIST` never sees return value 0 (`match_obj_list` returns 1 or 2), so
its `continue` is dead; `break` on 1 only fires when `mc.done` already holds,
in which case every remaining pool call is a no-op anyway.  The `while (1)`
block is therefore exactly a left-to-right visit of the flag-gated pools. -/

inductive PoolId where
  | possessions
  | possessionsGen
  | neighbors
  | neighborsGen
  | zoneExits
  | masterExits
  | roomExits
  | containerPool
  | carriedExits
deriving DecidableEq, Repr

inductive PoolData where
  | objs (l : List Int)
  | attrs (l : List AttrRec)

def poolData (w : World) (wher loc : Int) : PoolId → PoolData
  | .possessions => .objs (w.listFrom (w.firstContents wher))
  | .possessionsGen => .attrs (w.genericAttrs wher)
  | .neighbors => .objs (w.listFrom (w.firstContents loc))
  | .neighborsGen => .attrs (w.genericAttrs loc)
  | .zoneExits => .objs (w.listFrom (w.firstExit (w.zone loc)))
  | .masterExits => .objs (w.listFrom (w.firstExit w.masterRoom))
  | .roomExits => .objs (w.listFrom (w.firstExit loc))
  | .containerPool => .objs (w.listFrom loc)
  | .carriedExits => .objs (w.listFrom (w.firstExit wher))

/-- The sequence of pools the general search visits, in source order, each
gated exactly as in lines 565-599. -/
def poolSeq (w : World) (goodwhere : Bool) (wher loc : Int) (typ : Nat) (f : MFlags) :
    List PoolId :=
  (if goodwhere ∧ (f.possession ∨ f.remote_contents) then
    [.possessions, .possessionsGen] else []) ++
  (if GoodObject w loc ∧ f.neighbor ∧ ¬f.contents ∧ loc ≠ wher then
    [.neighbors, .neighborsGen] else []) ++
  (if (TYPE_EXIT &&& typ ≠ 0 ∨ ¬f.mtype) ∧ GoodObject w loc ∧ IsRoomB w loc ∧ f.exit then
    ((if f.remotes ∧ ¬(f.near ∨ f.contents) ∧ GoodObject w (w.zone loc) ∧
         IsRoomB w (w.zone loc) then [.zoneExits] else []) ++
     (if f.global ∧ ¬(f.near ∨ f.contents) then [.masterExits] else []) ++
     [.roomExits])
   else []) ++
  (if f.container ∧ ¬f.contents ∧ goodwhere then [.containerPool] else []) ++
  (if (TYPE_EXIT &&& typ ≠ 0 ∨ ¬f.mtype) ∧ f.carried_exit ∧ goodwhere ∧ IsRoomB w wher ∧
      (loc ≠ wher ∨ ¬f.exit) then [.carriedExits] else [])

def runPool (w : World) (wher loc : Int) (mc : MC) (p : PoolId) : MC :=
  match poolData w wher loc p with
  | .objs l => match_obj_list w l mc
  | .attrs l => match_attr_list w l mc

def runPools (w : World) (ps : List PoolId) (wher loc : Int) (mc : MC) : MC :=
  ps.foldl (runPool w wher loc) mc

/-! ### Result classification (lines 601-610) -/

def classify (w : World) (f : MFlags) (mc : MC) : Int :=
  if ¬GoodObject w mc.bestmatch ∧ mc.final ≠ 0 then NOTHING
  else if mc.final = 0 ∧ mc.curr > 1 then
    if mc.right_type ≠ 1 ∧ ¬f.last then AMBIGUOUS else mc.bestmatch
  else mc.bestmatch

/-- The general search: the pool walk followed by classification.  The
notifications of lines 612-621 write to the external channel and do not
affect the returned dbref. -/
def generalSearch (w : World) (goodwhere : Bool) (wher loc : Int) (mc : MC) : Int :=
  classify w mc.flags (runPools w (poolSeq w goodwhere wher loc mc.typ mc.flags) wher loc mc)

/-! ### parse_english (lines 644-735) -/

/-- The three restriction-adjective checks, applied in sequence on the
current text and flags (lines 653-675).  Group one only runs when
`MAT_NEIGHBOR` is set; the later groups test the flags left by the earlier
ones. -/
def pe_adj (xname : List Char) (f : MFlags) : List Char × MFlags :=
  let s1 :=
    if f.neighbor ∧ isCiPrefix (cs "this here ") xname then
      (xname.drop 10, { f with possession := false, exit := false })
    else if f.neighbor ∧ (isCiPrefix (cs "here ") xname ∨ isCiPrefix (cs "this ") xname) then
      (xname.drop 5,
       { f with possession := false, exit := false, remote_contents := false,
                container := false })
    else (xname, f)
  let s2 :=
    if s1.2.possession ∧ (isCiPrefix (cs "my ") s1.1 ∨ isCiPrefix (cs "me ") s1.1) then
      (s1.1.drop 3,
       { s1.2 with neighbor := false, exit := false, container := false,
                   remote_contents := false })
    else s1
  if (s2.2.exit ∨ s2.2.carried_exit) ∧ isCiPrefix (cs "toward ") s2.1 then
    (s2.1.drop 7,
     { s2.2 with neighbor := false, possession := false, container := false,
                 remote_contents := false })
  else s2

/-- Ordinal-suffix agreement of lines 703-722, applied to the wrapped `int`
value `c` of the count token followed by suffix `e`; `-1` on any mismatch
(including an empty suffix, since `strtoul` leaves `*e` at the NUL placed at
the space).  The `count < 1` test runs first, so the later `%` tests only
ever see a positive `c` and C's truncated `%` agrees with `Int.emod`. -/
def countOf (c : Int) (e : List Char) : Int :=
  if e = [] then -1
  else if c < 1 then -1
  else if 10 < c ∧ c < 14 then (if ciEq e (cs "th") then c else -1)
  else if c % 10 = 1 then (if ciEq e (cs "st") then c else -1)
  else if c % 10 = 2 then (if ciEq e (cs "nd") then c else -1)
  else if c % 10 = 3 then (if ciEq e (cs "rd") then c else -1)
  else (if ciEq e (cs "th") then c else -1)

/-- `parse_english`: returns the ordinal count (0 when none), the residual
text the later matching runs on, and the possibly-restricted flags.  The
count-failure paths of lines 690-698 and 724-729 keep the post-adjective
text and flags; only the empty-residual reset of lines 683-687 restores the
original `savename`/`saveflags`. -/
def parse_english (xname : List Char) (f : MFlags) : Nat × List Char × MFlags :=
  let a := pe_adj xname f
  let n2 := skipSpaces a.1
  match n2 with
  | [] => (0, xname, f)
  | c :: _ =>
    if !isDigitc c then (0, n2, a.2)
    else if !(n2.any (fun d => d = ' ')) then (0, n2, a.2)
    else
      let tok := n2.takeWhile (fun d => d ≠ ' ')
      let rest := (n2.dropWhile (fun d => d ≠ ' ')).drop 1
      let v := countWrap (digitsVal (tok.takeWhile isDigitc))
      let e := tok.dropWhile isDigitc
      if countOf v e < 0 then (0, n2, a.2)
      else ((countOf v e).toNat, skipSpaces rest, a.2)

/-! ### match_player (lines 399-417) and the orchestrator (lines 455-626) -/

def match_player (w : World) (who : Int) (nm : List Char) (loose : Bool) : Int :=
  let nm1 :=
    match nm with
    | c :: t => if c = '*' then t else nm
    | [] => nm
  let nm2 := nm1.dropWhile isSpacec
  let m := w.lookupPlayer nm2
  if m ≠ NOTHING then m
  else if GoodObject w who ∧ loose then w.visibleShortPage who nm2
  else NOTHING

/-- `match_result_internal`: precondition checks, the fixed-precedence
shortcuts ("me", "here", player name, absolute dbref), english parsing, then
the general pool search.  Shortcut branches that fail only the control check
record the `nocontrol` latch (which feeds the external failure message, not
the returned dbref) and fall through. -/
def match_result_internal (w : World) (who wher : Int) (xname : List Char) (typ : Nat)
    (flags : MFlags) : Int :=
  let ab := w.parseObjid xname
  let goodwhere := RealGoodObject w wher
  let loc : Int :=
    if ¬goodwhere then NOTHING
    else if IsRoomB w wher then wher
    else if IsExitB w wher then w.source wher
    else w.location wher
  if (flags.near ∧ ¬goodwhere) ∨ (flags.contents ∧ ¬goodwhere) then NOTHING
  else
    let meCond := goodwhere ∧ okType w typ flags wher ∧ flags.me ∧ ¬flags.contents ∧
      ciEq xname (cs "me")
    if meCond ∧ ctrlOk w flags who wher then wher
    else
      let nc1 := meCond ∧ ¬ctrlOk w flags who wher
      let hm : Int := if goodwhere then (if IsRoomB w wher then NOTHING else w.location wher)
                      else NOTHING
      let hereCond := flags.here ∧ ¬flags.contents ∧ ciEq xname (cs "here") ∧
        GoodObject w hm ∧ okType w typ flags hm
      if hereCond ∧ ctrlOk w flags who hm then hm
      else
        let nc2 := hereCond ∧ ¬ctrlOk w flags who hm
        let pCond := (flags.pmatch ∨ (flags.player ∧ isCiPrefix (cs "*") xname)) ∧
          (TYPE_PLAYER &&& typ ≠ 0 ∨ ¬flags.mtype)
        let pm := match_player w who xname (!flags.matExact)
        let pContents := ¬flags.contents ∨ w.location pm = wher
        let pNear := ¬flags.near ∨ w.longFingers who ∨ w.nearby who pm ∨ w.controls who pm
        if pCond ∧ pContents ∧ GoodObject w pm ∧ pNear ∧ ctrlOk w flags who pm then pm
        else
          let nc3 := pCond ∧ pContents ∧ GoodObject w pm ∧ pNear ∧ ¬ctrlOk w flags who pm
          let bm0 : Int := if pCond ∧ pContents ∧ ¬GoodObject w pm then
              choose_thing w who typ flags NOTHING pm else NOTHING
          let aCond := RealGoodObject w ab ∧ flags.absolute ∧ okType w typ flags ab ∧
            (¬flags.contents ∨ w.location ab = wher)
          let aNear := ¬flags.near ∨ w.longFingers who ∨ w.nearby who ab ∨ w.controls who ab
          if aCond ∧ aNear ∧ ctrlOk w flags who ab then ab
          else
            let nc4 := aCond ∧ aNear ∧ ¬ctrlOk w flags who ab
            let pe := if flags.english then parse_english xname flags else (0, xname, flags)
            let mc : MC :=
              { mtch := ab, bestmatch := bm0, abs := ab, who := who, wher := wher,
                flags := pe.2.2, typ := typ, final := pe.1, curr := 0,
                nocontrol := nc1 ∨ nc2 ∨ nc3 ∨ nc4, right_type := 0, exact := false,
                done := false, name := pe.2.1 }
            generalSearch w goodwhere wher loc mc

def match_result (w : World) (who : Int) (xname : List Char) (typ : Nat) (flags : MFlags) :
    Int :=
  match_result_internal w who who xname typ flags

def match_result_relative (w : World) (who wher : Int) (xname : List Char) (typ : Nat)
    (flags : MFlags) : Int :=
  match_result_internal w who wher xname typ flags

/-- `noisy_match_result` (lines 107-118): run with `MAT_NOISY` and collapse
every non-good outcome to `NOTHING`. -/
def noisy_match_result (w : World) (who : Int) (xname : List Char) (typ : Nat)
    (flags : MFlags) : Int :=
  let m := match_result w who xname typ { flags with noisy := true }
  if !GoodObject w m then NOTHING else m

def last_match_result (w : World) (who : Int) (xname : List Char) (typ : Nat)
    (flags : MFlags) : Int :=
  match_result w who xname typ { flags with last := true }

/-! ### Acceptance predicates

A candidate is accepted by the evaluator exactly when it passes the type
check, then either is the absolute-id interpretation or passes the
interaction check together with an exact or (when allowed) loose name match,
and finally passes the control check inside `matched`.  In ordinal mode the
`(!mc->exact || !GoodObject(mc->bestmatch))` guard of the loose branch is
identically true (`exact` is never set and `bestmatch` is never assigned
before the search stops), so acceptance is a function of the candidate and
the call-static data alone. -/

def acceptsF (w : World) (f : MFlags) (ty : Nat) (wo ab : Int) (nm : List Char)
    (x : Int) : Bool :=
  okType w ty f x &&
  (decide (x = ab) ||
    (w.canInteract x wo && (exactName w x nm || (!f.matExact && looseName w x nm)))) &&
  ctrlOk w f wo x

def acceptsAttrF (w : World) (f : MFlags) (ty : Nat) (wo ab : Int) (nm : List Char)
    (a : AttrRec) : Bool :=
  RealGoodObject w (decodeAttr w a) && w.hasGenericFlag (decodeAttr w a) &&
  decide (0 < w.parseInteger a.avalue) && acceptsF w f ty wo ab nm (decodeAttr w a)

def acceptedOfPool (w : World) (wher loc : Int) (f : MFlags) (ty : Nat) (wo ab : Int)
    (nm : List Char) (p : PoolId) : List Int :=
  match poolData w wher loc p with
  | .objs l => l.filter (acceptsF w f ty wo ab nm)
  | .attrs l => (l.filter (acceptsAttrF w f ty wo ab nm)).map (decodeAttr w)

/-- All accepted candidates over a pool sequence, in traversal order. -/
def acceptedAll (w : World) (wher loc : Int) (f : MFlags) (ty : Nat) (wo ab : Int)
    (nm : List Char) (ps : List PoolId) : List Int :=
  (ps.map (acceptedOfPool w wher loc f ty wo ab nm)).flatten

/-- Every object pool of the sequence contains only good objects.  This is
the `DOLIST` guarantee of the real database (the iteration stops at the
first non-good `Next` pointer), stated as a hypothesis on the model's chain
lists. -/
def poolsGoodB (w : World) (wher loc : Int) (ps : List PoolId) : Bool :=
  ps.all (fun p =>
    match poolData w wher loc p with
    | .objs l => l.all (fun x => GoodObject w x)
    | .attrs _ => true)

/-! ### Basic lemmas about the state machine -/

/-- Fields of the state that no evaluator step ever writes. -/
def SameStat (mc mc' : MC) : Prop :=
  mc'.flags = mc.flags ∧ mc'.typ = mc.typ ∧ mc'.who = mc.who ∧ mc'.abs = mc.abs ∧
  mc'.name = mc.name ∧ mc'.final = mc.final

theorem sameStat_refl (mc : MC) : SameStat mc mc := ⟨rfl, rfl, rfl, rfl, rfl, rfl⟩

theorem sameStat_trans {a b c : MC} (h1 : SameStat a b) (h2 : SameStat b c) :
    SameStat a c := by
  obtain ⟨p1, p2, p3, p4, p5, p6⟩ := h1
  obtain ⟨q1, q2, q3, q4, q5, q6⟩ := h2
  exact ⟨q1.trans p1, q2.trans p2, q3.trans p3, q4.trans p4, q5.trans p5, q6.trans p6⟩

theorem choose_thing_eq_or (w : World) (who : Int) (typ : Nat) (f : MFlags) (t1 t2 : Int) :
    choose_thing w who typ f t1 t2 = t1 ∨ choose_thing w who typ f t1 t2 = t2 := by
  unfold choose_thing
  repeat' split
  all_goals simp

theorem sameStat_mtch (mc : MC) (x : Int) : SameStat mc { mc with mtch := x } :=
  ⟨rfl, rfl, rfl, rfl, rfl, rfl⟩

theorem matched_stat (w : World) (full : Bool) (mc : MC) :
    SameStat mc (matched w full mc).2 := by
  unfold SameStat
  simp only [matched]
  repeat' split
  all_goals simp

theorem matchObjLoop_stat (w : World) (l : List Int) (mc : MC) :
    SameStat mc (matchObjLoop w l mc) := by
  induction l generalizing mc with
  | nil => exact sameStat_refl mc
  | cons x rest ih =>
    simp only [matchObjLoop]
    repeat' split
    all_goals
      first
      | exact sameStat_trans (sameStat_mtch mc x) (matched_stat w _ _)
      | exact sameStat_trans (sameStat_trans (sameStat_mtch mc x) (matched_stat w _ _)) (ih _)
      | exact sameStat_trans (sameStat_mtch mc x) (ih _)

theorem match_attr_helper_stat (w : World) (mc : MC) (a : AttrRec) :
    SameStat mc (match_attr_helper w mc a) := by
  simp only [match_attr_helper]
  repeat' split
  all_goals
    first
    | exact sameStat_refl _
    | exact sameStat_trans (sameStat_mtch mc _) (matched_stat w _ _)

theorem attrFold_stat (w : World) (l : List AttrRec) (mc : MC) :
    SameStat mc (l.foldl (match_attr_helper w) mc) := by
  induction l generalizing mc with
  | nil => exact sameStat_refl mc
  | cons a rest ih =>
    exact sameStat_trans (match_attr_helper_stat w mc a) (ih _)

theorem runPool_stat (w : World) (wher loc : Int) (mc : MC) (p : PoolId) :
    SameStat mc (runPool w wher loc mc p) := by
  unfold runPool match_obj_list match_attr_list
  repeat' split
  all_goals
    first
    | exact sameStat_refl _
    | exact matchObjLoop_stat w _ _
    | exact attrFold_stat w _ _

theorem runPools_stat (w : World) (ps : List PoolId) (wher loc : Int) (mc : MC) :
    SameStat mc (runPools w ps wher loc mc) := by
  induction ps generalizing mc with
  | nil => exact sameStat_refl mc
  | cons p rest ih =>
    exact sameStat_trans (runPool_stat w wher loc mc p) (ih _)

theorem runPool_done (w : World) (wher loc : Int) (mc : MC) (p : PoolId)
    (h : mc.done = true) : runPool w wher loc mc p = mc := by
  unfold runPool
  cases poolData w wher loc p with
  | objs l => unfold match_obj_list; simp [h]
  | attrs l => unfold match_attr_list; simp [h]

theorem runPools_done (w : World) (ps : List PoolId) (wher loc : Int) (mc : MC)
    (h : mc.done = true) : runPools w ps wher loc mc = mc := by
  induction ps with
  | nil => rfl
  | cons p rest ih =>
    unfold runPools at ih ⊢
    simp only [List.foldl_cons, runPool_done w wher loc mc p h, ih]

/-! ### Concrete worlds used by witnesses and counterexamples -/

def trivWorld : World :=
  { dbTop := 0
    typeof := fun _ => TYPE_GARBAGE
    name := fun _ => []
    aliasAttr := fun _ => none
    checkAlias := fun a b => ciEq a b
    stringMatch := fun _ _ => false
    listFrom := fun _ => []
    firstContents := fun _ => -1
    firstExit := fun _ => -1
    location := fun _ => -1
    source := fun _ => -1
    zone := fun _ => -1
    masterRoom := -1
    controls := fun _ _ => true
    canInteract := fun _ _ => true
    couldDoit := fun _ _ => true
    lookupPlayer := fun _ => -1
    visibleShortPage := fun _ _ => -1
    parseObjid := fun _ => -1
    parseDbref := fun _ => -1
    parseInteger := fun _ => 0
    longFingers := fun _ => false
    nearby := fun _ _ => false
    hasGenericFlag := fun _ => false
    genericAttrs := fun _ => [] }

/-! ## Claim C9 -/

/-- C9: the noisy variant of resolution never returns AMBIGUOUS: it collapses
every result that is not a live (good) entity — in particular AMBIGUOUS — to
NOTHING, so its result is always either a live entity or NOTHING. -/
theorem c9_noisy_total (w : World) (who : Int) (xname : List Char) (typ : Nat)
    (f : MFlags) :
    (noisy_match_result w who xname typ f = NOTHING ∨
      GoodObject w (noisy_match_result w who xname typ f) = true) ∧
    noisy_match_result w who xname typ f ≠ AMBIGUOUS ∧
    noisy_match_result w who xname typ f =
      (if !GoodObject w (match_result w who xname typ { f with noisy := true }) then NOTHING
       else match_result w who xname typ { f with noisy := true }) := by
  refine ⟨?_, ?_, rfl⟩
  · unfold noisy_match_result
    cases h : GoodObject w (match_result w who xname typ { f with noisy := true }) with
    | false => exact Or.inl (by simp [h])
    | true => exact Or.inr (by simp [h])
  · unfold noisy_match_result
    cases h : GoodObject w (match_result w who xname typ { f with noisy := true }) with
    | false =>
      simp only [h, Bool.not_false, if_true]
      decide
    | true =>
      simp only [h, Bool.not_true]
      have h2 := h
      unfold GoodObject at h2
      rw [decide_eq_true_eq] at h2
      intro hc
      rw [if_neg (by decide)] at hc
      rw [hc] at h2
      unfold AMBIGUOUS at h2
      omega

/-! ## Claim C4 -/

/-- The Tie-Breaker exactly as the claim's five clauses word it, written for
comparison against the source's `choose_thing`.  Clause (1) reads: if both
are invalid, return `b` unless `b` is specifically the NOTHING sentinel and
`a` is some other invalid value, in which case return `a`. -/
def chooseSpecC4 (w : World) (who : Int) (typ : Nat) (f : MFlags) (t1 t2 : Int) : Int :=
  if !GoodObject w t1 && !GoodObject w t2 then
    (if t2 = NOTHING ∧ t1 ≠ NOTHING then t1 else t2)
  else if GoodObject w t1 && !GoodObject w t2 then t1
  else if !GoodObject w t1 && GoodObject w t2 then t2
  else if typ ≠ NOTYPE ∧ (w.typeof t1 &&& typ ≠ 0 ↔ w.typeof t2 &&& typ = 0) then
    (if w.typeof t1 &&& typ ≠ 0 then t1 else t2)
  else if f.check_keys ∧ (w.couldDoit who t1 = true ↔ w.couldDoit who t2 = false) then
    (if w.couldDoit who t1 then t1 else t2)
  else t2

def w0 : World := { trivWorld with dbTop := 1, typeof := fun _ => TYPE_THING }

/-- C4 counterexample: with both references invalid, the source returns `b`
only when `a` is exactly NOTHING, not (as the claim's clause (1) says)
whenever `b` is not the NOTHING sentinel.  At `a = AMBIGUOUS (-2)`,
`b = HOME (-3)` the code keeps `a` while the claim as written returns `b`. -/
theorem c4_counterexample :
    choose_thing w0 0 NOTYPE {} (-2) (-3) = -2 ∧
    chooseSpecC4 w0 0 NOTYPE {} (-2) (-3) = -3 ∧
    choose_thing w0 0 NOTYPE {} (-2) (-3) ≠ chooseSpecC4 w0 0 NOTYPE {} (-2) (-3) := by
  decide

/-- C4 amended: the tie-breaker implements the claimed deterministic order
with clause (1) corrected to: if both are invalid, return `b` exactly when
`a` is the NOTHING sentinel, else return `a` (so a more specific invalid
reason in `a` — e.g. AMBIGUOUS — survives over any later invalid value).
Clauses (2)-(5) are as claimed. -/
theorem c4_amended (w : World) (who : Int) (typ : Nat) (f : MFlags) (t1 t2 : Int) :
    (GoodObject w t1 = false → GoodObject w t2 = false →
      choose_thing w who typ f t1 t2 = if t1 = NOTHING then t2 else t1) ∧
    (GoodObject w t1 = true → GoodObject w t2 = false →
      choose_thing w who typ f t1 t2 = t1) ∧
    (GoodObject w t1 = false → GoodObject w t2 = true →
      choose_thing w who typ f t1 t2 = t2) ∧
    (GoodObject w t1 = true → GoodObject w t2 = true → typ ≠ NOTYPE →
      (w.typeof t1 &&& typ ≠ 0 ↔ w.typeof t2 &&& typ = 0) →
      choose_thing w who typ f t1 t2 = if w.typeof t1 &&& typ ≠ 0 then t1 else t2) ∧
    (GoodObject w t1 = true → GoodObject w t2 = true →
      (typ = NOTYPE ∨ (w.typeof t1 &&& typ ≠ 0 ↔ w.typeof t2 &&& typ ≠ 0)) →
      f.check_keys = true → (w.couldDoit who t1 = true ↔ w.couldDoit who t2 = false) →
      choose_thing w who typ f t1 t2 = if w.couldDoit who t1 then t1 else t2) ∧
    (GoodObject w t1 = true → GoodObject w t2 = true →
      (typ = NOTYPE ∨ (w.typeof t1 &&& typ ≠ 0 ↔ w.typeof t2 &&& typ ≠ 0)) →
      (f.check_keys = false ∨ w.couldDoit who t1 = w.couldDoit who t2) →
      choose_thing w who typ f t1 t2 = t2) := by
  refine ⟨?_, ?_, ?_, ?_, ?_, ?_⟩
  · intro h1 h2
    unfold choose_thing
    rw [if_pos (by simp [h1, h2])]
  · intro h1 h2
    unfold choose_thing
    rw [if_neg (by simp [h1]), if_neg (by simp [h1]), if_pos (by simp [h2])]
  · intro h1 h2
    unfold choose_thing
    rw [if_neg (by simp [h2]), if_pos (by simp [h1])]
  · intro h1 h2 ht hx
    unfold choose_thing
    rw [if_neg (by simp [h1]), if_neg (by simp [h1]), if_neg (by simp [h2])]
    by_cases hb : w.typeof t1 &&& typ ≠ 0
    · have hb2 : w.typeof t2 &&& typ = 0 := hx.mp hb
      rw [if_pos ⟨ht, hb, hb2⟩, if_pos hb]
    · have hb1 : w.typeof t1 &&& typ = 0 := by omega
      have hb2 : w.typeof t2 &&& typ ≠ 0 := fun h0 => hb (hx.mpr h0)
      rw [if_neg (by rintro ⟨_, hz, _⟩; exact hb hz), if_pos ⟨ht, hb1, hb2⟩, if_neg hb]
  · intro h1 h2 hnd hk hx
    have hf4 : ¬(typ ≠ NOTYPE ∧ w.typeof t1 &&& typ ≠ 0 ∧ w.typeof t2 &&& typ = 0) := by
      rintro ⟨ht, hb1, hb2⟩
      rcases hnd with h | h
      · exact ht h
      · exact (h.mp hb1) hb2
    have hf5 : ¬(typ ≠ NOTYPE ∧ w.typeof t1 &&& typ = 0 ∧ w.typeof t2 &&& typ ≠ 0) := by
      rintro ⟨ht, hb1, hb2⟩
      rcases hnd with h | h
      · exact ht h
      · exact (h.mpr hb2) hb1
    unfold choose_thing
    rw [if_neg (by simp [h1]), if_neg (by simp [h1]), if_neg (by simp [h2]),
      if_neg hf4, if_neg hf5]
    cases hc1 : w.couldDoit who t1 with
    | true =>
      have hc2 : w.couldDoit who t2 = false := hx.mp hc1
      simp [hk, hc2]
    | false =>
      have hc2 : w.couldDoit who t2 = true := by
        cases hcc : w.couldDoit who t2 with
        | true => rfl
        | false =>
          have h3 := hx.mpr hcc
          rw [hc1] at h3
          exact absurd h3 (by decide)
      simp [hk, hc2]
  · intro h1 h2 hnd hkk
    have hf4 : ¬(typ ≠ NOTYPE ∧ w.typeof t1 &&& typ ≠ 0 ∧ w.typeof t2 &&& typ = 0) := by
      rintro ⟨ht, hb1, hb2⟩
      rcases hnd with h | h
      · exact ht h
      · exact (h.mp hb1) hb2
    have hf5 : ¬(typ ≠ NOTYPE ∧ w.typeof t1 &&& typ = 0 ∧ w.typeof t2 &&& typ ≠ 0) := by
      rintro ⟨ht, hb1, hb2⟩
      rcases hnd with h | h
      · exact ht h
      · exact (h.mpr hb2) hb1
    have hf6 : ¬(f.check_keys = true ∧ ¬(w.couldDoit who t1 = true) ∧
        w.couldDoit who t2 = true) := by
      rintro ⟨hck, hn1, h2c⟩
      rcases hkk with h | h
      · rw [h] at hck; exact absurd hck (by decide)
      · rw [h] at hn1; exact hn1 h2c
    have hf7 : ¬(f.check_keys = true ∧ w.couldDoit who t1 = true ∧
        ¬(w.couldDoit who t2 = true)) := by
      rintro ⟨hck, h1c, hn2⟩
      rcases hkk with h | h
      · rw [h] at hck; exact absurd hck (by decide)
      · rw [h] at h1c; exact hn2 h1c
    unfold choose_thing
    rw [if_neg (by simp [h1]), if_neg (by simp [h1]), if_neg (by simp [h2]),
      if_neg hf4, if_neg hf5, if_neg hf6, if_neg hf7]

/-- C4 amended witness: clause (2) at a concrete pair — one live entity and
one invalid reference — returns the live one. -/
theorem c4_amended_witness :
    GoodObject w0 0 = true ∧ GoodObject w0 (-5) = false ∧
    choose_thing w0 0 NOTYPE {} 0 (-5) = 0 :=
  ⟨by decide, by decide, (c4_amended w0 0 NOTYPE {} 0 (-5)).2.1 (by decide) (by decide)⟩

/-- In unranked mode, recording a first exact match on a kept candidate sets
the latch and rebuilds both counters from this candidate alone. -/
theorem matched_record (w : World) (mc : MC) (hf : mc.final = 0)
    (hctrl : ctrlOk w mc.flags mc.who mc.mtch = true)
    (hch : choose_thing w mc.who mc.typ mc.flags mc.bestmatch mc.mtch = mc.mtch)
    (hex : mc.exact = false) :
    matched w true mc =
      (false,
        if mc.typ ≠ NOTYPE ∧ w.typeof mc.mtch &&& mc.typ ≠ 0 then
          { mc with bestmatch := mc.mtch, exact := true, curr := 1, right_type := 1 }
        else { mc with bestmatch := mc.mtch, exact := true, curr := 1, right_type := 0 }) := by
  unfold matched
  rw [if_neg (by simp [hctrl]), if_pos hf]
  simp [hch, hex, apply_ite]

/-! ## Claim C10 -/

/-- C10: a candidate equal to the absolute-id interpretation of the input is
handled as an automatic exact match before the `can_interact` visibility
check and regardless of `MAT_EXACT`: in both the object-list and the
attribute-list enumerators, such a candidate that passes the type check goes
straight to `matched(1, mc)` even with interaction denied and exact-only
matching requested, and (when it is kept by control and tie-break checks in
unranked mode) it is counted as an exact match. -/
theorem c10_abs_is_exact :
    (∀ (w : World) (mc : MC) (x : Int),
      mc.done = false → okType w mc.typ mc.flags x = true → x = mc.abs →
      w.canInteract x mc.who = false → mc.flags.matExact = true →
      match_obj_list w [x] mc = (matched w true { mc with mtch := x }).2 ∧
      (mc.final = 0 → mc.exact = false →
       ctrlOk w mc.flags mc.who x = true →
       choose_thing w mc.who mc.typ mc.flags mc.bestmatch x = x →
       (match_obj_list w [x] mc).exact = true ∧ (match_obj_list w [x] mc).curr = 1 ∧
       (match_obj_list w [x] mc).bestmatch = x)) ∧
    (∀ (w : World) (mc : MC) (a : AttrRec),
      mc.done = false → RealGoodObject w (decodeAttr w a) = true →
      w.hasGenericFlag (decodeAttr w a) = true → 0 < w.parseInteger a.avalue →
      okType w mc.typ mc.flags (decodeAttr w a) = true → decodeAttr w a = mc.abs →
      w.canInteract (decodeAttr w a) mc.who = false → mc.flags.matExact = true →
      match_attr_helper w mc a = (matched w true { mc with mtch := decodeAttr w a }).2) := by
  constructor
  · intro w mc x hdone htyp habs hint hexa
    have hmain : match_obj_list w [x] mc = (matched w true { mc with mtch := x }).2 := by
      unfold match_obj_list
      rw [if_neg (by simp [hdone])]
      simp only [matchObjLoop, htyp, Bool.not_true]
      rw [if_neg (by decide), if_pos habs]
      split
      · rfl
      · simp only [matchObjLoop]
    refine ⟨hmain, ?_⟩
    intro hfin hexact hctrl hch
    rw [hmain, matched_record w { mc with mtch := x } hfin hctrl hch hexact]
    split <;> simp
  · intro w mc a hdone hreal hflag hnum htyp habs hint hexa
    unfold match_attr_helper
    rw [if_neg (by simp [hdone]), if_neg (by simp [hreal, hflag]),
      if_neg (by omega), if_neg (by simp [htyp]), if_pos habs]

def w10 : World :=
  { trivWorld with
    dbTop := 2
    typeof := fun _ => TYPE_THING
    canInteract := fun _ _ => false }

def mc10 : MC :=
  { mtch := -1, bestmatch := -1, abs := 1, who := 0, wher := 0,
    flags := { matExact := true }, typ := NOTYPE, final := 0, curr := 0,
    nocontrol := false, right_type := 0, exact := false, done := false, name := cs "x" }

/-- C10 witness: with interaction denied and exact-only matching on, the
absolute-id candidate is still recorded as an exact match. -/
theorem c10_witness :
    match_obj_list w10 [1] mc10 = (matched w10 true { mc10 with mtch := 1 }).2 ∧
    (match_obj_list w10 [1] mc10).exact = true ∧
    (match_obj_list w10 [1] mc10).curr = 1 ∧
    (match_obj_list w10 [1] mc10).bestmatch = 1 := by
  have h := c10_abs_is_exact.1 w10 mc10 1 (by decide) (by decide) (by decide) (by decide)
    (by decide)
  exact ⟨h.1, h.2 (by decide) (by decide) (by decide) (by decide)⟩

/-! ## Claims C5 and C6: the Phrase Parser -/

theorem lowerc_of_isDigit (c : Char) (h : isDigitc c = true) : lowerc c = c := by
  unfold isDigitc at h
  rw [decide_eq_true_eq] at h
  unfold lowerc
  rw [if_neg (by omega)]

/-- A word starting with a lowercase letter is never a case-insensitive
prefix of text starting with a digit. -/
theorem not_ciPrefix_letter_digit (a : Char) (p : List Char) (c : Char) (t : List Char)
    (ha : 97 ≤ a.toNat ∧ a.toNat ≤ 122) (hc : isDigitc c = true) :
    isCiPrefix (a :: p) (c :: t) = false := by
  unfold isCiPrefix ciEq
  simp only [List.length_cons, List.take_succ_cons, List.map_cons]
  rw [beq_eq_false_iff_ne]
  intro heq
  have hhead : lowerc a = lowerc c := by
    have := congrArg (fun l => l.headI) heq
    simpa using this
  rw [lowerc_of_isDigit c hc] at hhead
  have hla : lowerc a = a := by
    unfold lowerc
    rw [if_neg (by omega)]
  rw [hla] at hhead
  have := congrArg Char.toNat hhead
  unfold isDigitc at hc
  rw [decide_eq_true_eq] at hc
  omega

theorem isDigit_ne_space (c : Char) (h : isDigitc c = true) : (c = ' ') = False := by
  unfold isDigitc at h
  rw [decide_eq_true_eq] at h
  simp only [eq_iff_iff, iff_false]
  intro hcs
  rw [hcs] at h
  exact absurd h (by decide)

/-- With a leading digit, no restriction adjective can fire: the adjective
phase leaves the text and flags untouched. -/
theorem pe_adj_digit (c : Char) (t : List Char) (f : MFlags) (hd : isDigitc c = true) :
    pe_adj (c :: t) f = (c :: t, f) := by
  have p1 : isCiPrefix (cs "this here ") (c :: t) = false :=
    not_ciPrefix_letter_digit 't' (cs "his here ") c t (by decide) hd
  have p2 : isCiPrefix (cs "here ") (c :: t) = false :=
    not_ciPrefix_letter_digit 'h' (cs "ere ") c t (by decide) hd
  have p3 : isCiPrefix (cs "this ") (c :: t) = false :=
    not_ciPrefix_letter_digit 't' (cs "his ") c t (by decide) hd
  have p4 : isCiPrefix (cs "my ") (c :: t) = false :=
    not_ciPrefix_letter_digit 'm' (cs "y ") c t (by decide) hd
  have p5 : isCiPrefix (cs "me ") (c :: t) = false :=
    not_ciPrefix_letter_digit 'm' (cs "e ") c t (by decide) hd
  have p6 : isCiPrefix (cs "toward ") (c :: t) = false :=
    not_ciPrefix_letter_digit 't' (cs "oward ") c t (by decide) hd
  unfold pe_adj
  simp [p1, p2, p3, p4, p5, p6]

def fl6 : MFlags := { neighbor := true, possession := true, exit := true, english := true }

/-- C5 counterexample: the claim reads the suffix-agreement test against the
true numeral value of the digit run, but line 702 assigns the `strtoul`
result to a 32-bit `int`, which wraps: "4294967297" becomes 1, so
"4294967297st x" — whose true value ends in 7, mismatching "st" — is
nevertheless consumed as ordinal 1 with residual "x" instead of being
treated as containing no ordinal. -/
theorem c5_counterexample :
    parse_english (cs "4294967297st x") fl6 = (1, cs "x", fl6) ∧
    digitsVal (cs "4294967297") % 10 = 7 ∧
    countWrap (digitsVal (cs "4294967297")) = 1 := by
  refine ⟨?_, by decide, by decide⟩
  decide

/-- C5 amended: the ordinal-suffix agreement of lines 703-722 is tested
against the digit run's value as wrapped by the unsigned-long-to-int
assignment of line 702, not its true numeral value.  An input whose leading
digit token is malformed under that wrapped value — no following space
anywhere, or an absent/mismatched ordinal suffix (such as "0th" or "12nd")
— is not treated as an ordinal: `parse_english` returns count 0 with the
residual text and the option flags exactly as passed in, so matching
proceeds on the entire original phrase. -/
theorem c5_malformed_ordinal (xname : List Char) (f : MFlags) (c : Char) (t : List Char)
    (hx : xname = c :: t) (hd : isDigitc c = true)
    (hbad : (xname.any (fun d => d = ' ')) = false ∨
      countOf (countWrap (digitsVal ((xname.takeWhile (fun d => d ≠ ' ')).takeWhile
          isDigitc)))
        ((xname.takeWhile (fun d => d ≠ ' ')).dropWhile isDigitc) < 0) :
    parse_english xname f = (0, xname, f) := by
  subst hx
  have hadj := pe_adj_digit c t f hd
  have hskip : skipSpaces (c :: t) = c :: t := by
    unfold skipSpaces
    rw [List.dropWhile_cons, if_neg (by simp [isDigit_ne_space c hd])]
  simp only [parse_english, hadj, hskip, hd, Bool.not_true, Bool.false_eq_true, if_false]
  rcases hbad with h | h
  · simp [h]
  · cases hany : ((c :: t).any (fun d => d = ' ')) with
    | false => simp
    | true =>
      simp only [Bool.not_true, Bool.false_eq_true, if_false]
      rw [if_pos h]

/-- C5 amended witness: "0th sword" — mismatched suffix on (wrapped) value 0
— is matched literally in full, with the flags unchanged. -/
theorem c5_witness :
    parse_english (cs "0th sword") fl6 = (0, cs "0th sword", fl6) :=
  c5_malformed_ordinal (cs "0th sword") fl6 '0' (cs "th sword") rfl (by decide)
    (Or.inr (by decide))

theorem skipSpaces_suffix (l : List Char) : List.IsSuffix (skipSpaces l) l :=
  List.dropWhile_suffix _

/-- C6 counterexample: on "this here box" with the neighbor scope active the
parser masks out the POSSESSION (and EXIT) flags and leaves NEIGHBOR set —
it restricts the search to the neighbor scope, not (as the claim states) to
the possessions scope. -/
theorem c6_counterexample :
    (parse_english (cs "this here box") fl6).2.2.possession = false ∧
    (parse_english (cs "this here box") fl6).2.2.neighbor = true ∧
    (parse_english (cs "this here box") fl6).2.2.exit = false ∧
    (parse_english (cs "this here box") fl6).2.1 = cs "box" := by
  decide

/-- The count phase never changes the flags: with a nonempty residual after
the adjective phase, the flags `parse_english` returns are the adjective
phase's flags. -/
theorem parse_english_flags (xname : List Char) (f : MFlags)
    (hne : skipSpaces (pe_adj xname f).1 ≠ []) :
    (parse_english xname f).2.2 = (pe_adj xname f).2 := by
  simp only [parse_english]
  cases hsk : skipSpaces (pe_adj xname f).1 with
  | nil => exact absurd hsk hne
  | cons c tl =>
    dsimp only
    split
    · rfl
    · split
      · rfl
      · split
        · rfl
        · rfl

/-- C6 amended: when the neighbor-search flag is active and the input begins
case-insensitively with "this here ", the parser consumes the prefix and
masks out the possessions and exit scope flags.  If the residual is nonempty
after space-skipping and does not itself begin with the "toward " exit
adjective, the remaining search is restricted to the NEIGHBOR scope — the
neighbor flag is left set.  If the residual does begin with "toward " while
the carried-exit flag is set, the toward group also fires and claims the
search for the carried-exit scope: the neighbor flag (and the possession and
exit flags) end up cleared. -/
theorem c6_this_here_neighbor :
    (∀ (xname : List Char) (f : MFlags),
      f.neighbor = true →
      isCiPrefix (cs "this here ") xname = true →
      isCiPrefix (cs "toward ") (xname.drop 10) = false →
      skipSpaces (xname.drop 10) ≠ [] →
      (parse_english xname f).2.2.possession = false ∧
      (parse_english xname f).2.2.exit = false ∧
      (parse_english xname f).2.2.neighbor = true ∧
      List.IsSuffix (parse_english xname f).2.1 (xname.drop 10)) ∧
    (∀ (xname : List Char) (f : MFlags),
      f.neighbor = true →
      f.carried_exit = true →
      isCiPrefix (cs "this here ") xname = true →
      isCiPrefix (cs "toward ") (xname.drop 10) = true →
      skipSpaces ((xname.drop 10).drop 7) ≠ [] →
      (parse_english xname f).2.2.possession = false ∧
      (parse_english xname f).2.2.exit = false ∧
      (parse_english xname f).2.2.neighbor = false) := by
  constructor
  · intro xname f hn hp htw hne
    have hadj : pe_adj xname f =
        (xname.drop 10, { f with possession := false, exit := false }) := by
      unfold pe_adj
      simp [hn, hp, htw]
    have hs0 : List.IsSuffix (skipSpaces (xname.drop 10)) (xname.drop 10) :=
      skipSpaces_suffix _
    simp only [parse_english, hadj]
    cases hsk : skipSpaces (xname.drop 10) with
    | nil => exact absurd hsk hne
    | cons c tl =>
      rw [hsk] at hs0
      simp only [hsk]
      split
      · exact ⟨rfl, rfl, hn, hs0⟩
      · split
        · exact ⟨rfl, rfl, hn, hs0⟩
        · split
          · exact ⟨rfl, rfl, hn, hs0⟩
          · refine ⟨rfl, rfl, hn, ?_⟩
            have h1 : List.IsSuffix
                (skipSpaces (((c :: tl).dropWhile (fun d => d ≠ ' ')).drop 1))
                (((c :: tl).dropWhile (fun d => d ≠ ' ')).drop 1) := skipSpaces_suffix _
            have h2 : List.IsSuffix (((c :: tl).dropWhile (fun d => d ≠ ' ')).drop 1)
                ((c :: tl).dropWhile (fun d => d ≠ ' ')) := List.drop_suffix _ _
            have h3 : List.IsSuffix ((c :: tl).dropWhile (fun d => d ≠ ' ')) (c :: tl) :=
              List.dropWhile_suffix _
            exact ((h1.trans h2).trans h3).trans hs0
  · intro xname f hn hc hp htw hne
    have hadj : pe_adj xname f =
        ((xname.drop 10).drop 7,
          { f with possession := false, exit := false, neighbor := false,
                   container := false, remote_contents := false }) := by
      unfold pe_adj
      simp [hn, hp, htw, hc]
    have hflags := parse_english_flags xname f (by rw [hadj]; exact hne)
    rw [hflags, hadj]
    exact ⟨rfl, rfl, rfl⟩

def fl6c : MFlags := { fl6 with carried_exit := true }

/-- C6 amended witness: the neighbor restriction at "this here box", and the
toward hand-off at "this here toward north" with the carried-exit flag
set. -/
theorem c6_witness :
    ((parse_english (cs "this here box") fl6).2.2.possession = false ∧
     (parse_english (cs "this here box") fl6).2.2.exit = false ∧
     (parse_english (cs "this here box") fl6).2.2.neighbor = true ∧
     List.IsSuffix (parse_english (cs "this here box") fl6).2.1
       ((cs "this here box").drop 10)) ∧
    ((parse_english (cs "this here toward north") fl6c).2.2.possession = false ∧
     (parse_english (cs "this here toward north") fl6c).2.2.exit = false ∧
     (parse_english (cs "this here toward north") fl6c).2.2.neighbor = false) :=
  ⟨c6_this_here_neighbor.1 (cs "this here box") fl6 rfl (by decide) (by decide)
     (by decide),
   c6_this_here_neighbor.2 (cs "this here toward north") fl6c rfl rfl (by decide)
     (by decide) (by decide)⟩

/-! ## Claim C7 -/

theorem ciPrefix_head (a : Char) (p s : List Char) (h : isCiPrefix (a :: p) s = true) :
    ∃ c t, s = c :: t ∧ lowerc c = lowerc a := by
  cases s with
  | nil =>
    exfalso
    unfold isCiPrefix ciEq at h
    simp at h
  | cons c t =>
    refine ⟨c, t, rfl, ?_⟩
    unfold isCiPrefix ciEq at h
    simp only [List.length_cons, List.take_succ_cons, List.map_cons, beq_iff_eq,
      List.cons.injEq] at h
    exact h.1.symm

theorem ciPrefix_head2 (a b : Char) (p s : List Char)
    (h : isCiPrefix (a :: b :: p) s = true) :
    ∃ c d t, s = c :: d :: t ∧ lowerc c = lowerc a ∧ lowerc d = lowerc b := by
  cases s with
  | nil =>
    exfalso
    unfold isCiPrefix ciEq at h
    simp at h
  | cons c t =>
    cases t with
    | nil =>
      exfalso
      unfold isCiPrefix ciEq at h
      simp at h
    | cons d t2 =>
      refine ⟨c, d, t2, rfl, ?_, ?_⟩
      all_goals
        unfold isCiPrefix ciEq at h
        simp only [List.length_cons, List.take_succ_cons, List.map_cons, beq_iff_eq,
          List.cons.injEq] at h
      · exact h.1.symm
      · exact h.2.1.symm

/-- After "my "/"me " fires, the exit flag is masked (and stays masked even
if a "toward " adjective follows). -/
theorem pe_adj_my_exit (xname : List Char) (f : MFlags) (hposs : f.possession = true)
    (hp : isCiPrefix (cs "my ") xname = true ∨ isCiPrefix (cs "me ") xname = true) :
    (pe_adj xname f).2.exit = false := by
  have hhead : ∃ c t, xname = c :: t ∧ lowerc c = 'm' := by
    rcases hp with h | h
    · exact ciPrefix_head 'm' (cs "y ") xname h
    · exact ciPrefix_head 'm' (cs "e ") xname h
  obtain ⟨c, t, hx, hlc⟩ := hhead
  subst hx
  have p1 : isCiPrefix (cs "this here ") (c :: t) = false := by
    cases hq : isCiPrefix (cs "this here ") (c :: t) with
    | false => rfl
    | true =>
      obtain ⟨c2, t2, heq, hl2⟩ := ciPrefix_head 't' (cs "his here ") (c :: t) hq
      rw [List.cons.injEq] at heq
      rw [heq.1] at hlc
      rw [hlc] at hl2
      exact absurd hl2 (by decide)
  have p2 : isCiPrefix (cs "here ") (c :: t) = false := by
    cases hq : isCiPrefix (cs "here ") (c :: t) with
    | false => rfl
    | true =>
      obtain ⟨c2, t2, heq, hl2⟩ := ciPrefix_head 'h' (cs "ere ") (c :: t) hq
      rw [List.cons.injEq] at heq
      rw [heq.1] at hlc
      rw [hlc] at hl2
      exact absurd hl2 (by decide)
  have p3 : isCiPrefix (cs "this ") (c :: t) = false := by
    cases hq : isCiPrefix (cs "this ") (c :: t) with
    | false => rfl
    | true =>
      obtain ⟨c2, t2, heq, hl2⟩ := ciPrefix_head 't' (cs "his ") (c :: t) hq
      rw [List.cons.injEq] at heq
      rw [heq.1] at hlc
      rw [hlc] at hl2
      exact absurd hl2 (by decide)
  rcases hp with h | h <;>
  · simp [pe_adj, p1, p2, p3, h, hposs]
    split <;> rfl

/-- After "toward " fires, the possession and remote-contents flags are
masked. -/
theorem pe_adj_toward_poss (xname : List Char) (f : MFlags)
    (hsc : f.exit = true ∨ f.carried_exit = true)
    (hp : isCiPrefix (cs "toward ") xname = true) :
    (pe_adj xname f).2.possession = false ∧
    (pe_adj xname f).2.remote_contents = false := by
  obtain ⟨c, d, t, hx, hlc, hld⟩ := ciPrefix_head2 't' 'o' (cs "ward ") xname hp
  subst hx
  have p1 : isCiPrefix (cs "this here ") (c :: d :: t) = false := by
    cases hq : isCiPrefix (cs "this here ") (c :: d :: t) with
    | false => rfl
    | true =>
      obtain ⟨c2, d2, t2, heq, _, hl3⟩ := ciPrefix_head2 't' 'h' (cs "is here ") _ hq
      injection heq with e1 e2
      injection e2 with e3 e4
      rw [← e3] at hl3
      rw [hld] at hl3
      exact absurd hl3 (by decide)
  have p2 : isCiPrefix (cs "here ") (c :: d :: t) = false := by
    cases hq : isCiPrefix (cs "here ") (c :: d :: t) with
    | false => rfl
    | true =>
      obtain ⟨c2, t2, heq, hl2⟩ := ciPrefix_head 'h' (cs "ere ") _ hq
      injection heq with e1 e2
      rw [← e1] at hl2
      rw [hlc] at hl2
      exact absurd hl2 (by decide)
  have p3 : isCiPrefix (cs "this ") (c :: d :: t) = false := by
    cases hq : isCiPrefix (cs "this ") (c :: d :: t) with
    | false => rfl
    | true =>
      obtain ⟨c2, d2, t2, heq, _, hl3⟩ := ciPrefix_head2 't' 'h' (cs "is ") _ hq
      injection heq with e1 e2
      injection e2 with e3 e4
      rw [← e3] at hl3
      rw [hld] at hl3
      exact absurd hl3 (by decide)
  have p4 : isCiPrefix (cs "my ") (c :: d :: t) = false := by
    cases hq : isCiPrefix (cs "my ") (c :: d :: t) with
    | false => rfl
    | true =>
      obtain ⟨c2, t2, heq, hl2⟩ := ciPrefix_head 'm' (cs "y ") _ hq
      injection heq with e1 e2
      rw [← e1] at hl2
      rw [hlc] at hl2
      exact absurd hl2 (by decide)
  have p5 : isCiPrefix (cs "me ") (c :: d :: t) = false := by
    cases hq : isCiPrefix (cs "me ") (c :: d :: t) with
    | false => rfl
    | true =>
      obtain ⟨c2, t2, heq, hl2⟩ := ciPrefix_head 'm' (cs "e ") _ hq
      injection heq with e1 e2
      rw [← e1] at hl2
      rw [hlc] at hl2
      exact absurd hl2 (by decide)
  rcases hsc with h | h <;> simp [pe_adj, p1, p2, p3, p4, p5, hp, h]

theorem mem_ite_nil {α : Type} (x : α) (c : Prop) [Decidable c] (l : List α)
    (h : x ∈ (if c then l else [])) : c ∧ x ∈ l := by
  by_cases hc : c
  · rw [if_pos hc] at h
    exact ⟨hc, h⟩
  · rw [if_neg hc] at h
    exact absurd h (List.not_mem_nil x)

theorem poolSeq_no_exit_pools (w : World) (gw : Bool) (wher loc : Int) (typ : Nat)
    (f' : MFlags) (hex : f'.exit = false) :
    PoolId.zoneExits ∉ poolSeq w gw wher loc typ f' ∧
    PoolId.masterExits ∉ poolSeq w gw wher loc typ f' ∧
    PoolId.roomExits ∉ poolSeq w gw wher loc typ f' := by
  refine ⟨?_, ?_, ?_⟩ <;>
  · intro hmem
    unfold poolSeq at hmem
    simp only [List.mem_append] at hmem
    rcases hmem with (((h | h) | h) | h) | h
    · obtain ⟨hc, hm⟩ := mem_ite_nil _ _ _ h
      simp at hm
    · obtain ⟨hc, hm⟩ := mem_ite_nil _ _ _ h
      simp at hm
    · obtain ⟨hc, hm⟩ := mem_ite_nil _ _ _ h
      exact absurd hc.2.2.2 (by simp [hex])
    · obtain ⟨hc, hm⟩ := mem_ite_nil _ _ _ h
      simp at hm
    · obtain ⟨hc, hm⟩ := mem_ite_nil _ _ _ h
      simp at hm

theorem poolSeq_no_possession_pools (w : World) (gw : Bool) (wher loc : Int) (typ : Nat)
    (f' : MFlags) (hp : f'.possession = false) (hr : f'.remote_contents = false) :
    PoolId.possessions ∉ poolSeq w gw wher loc typ f' ∧
    PoolId.possessionsGen ∉ poolSeq w gw wher loc typ f' := by
  refine ⟨?_, ?_⟩ <;>
  · intro hmem
    unfold poolSeq at hmem
    simp only [List.mem_append] at hmem
    rcases hmem with (((h | h) | h) | h) | h
    · obtain ⟨hc, hm⟩ := mem_ite_nil _ _ _ h
      rcases hc.2 with h2 | h2
      · rw [hp] at h2
        exact absurd h2 (by decide)
      · rw [hr] at h2
        exact absurd h2 (by decide)
    · obtain ⟨hc, hm⟩ := mem_ite_nil _ _ _ h
      simp at hm
    · obtain ⟨hc, hm⟩ := mem_ite_nil _ _ _ h
      simp only [List.mem_append] at hm
      rcases hm with (h3 | h3) | h3
      · obtain ⟨hc2, hm2⟩ := mem_ite_nil _ _ _ h3
        simp at hm2
      · obtain ⟨hc2, hm2⟩ := mem_ite_nil _ _ _ h3
        simp at hm2
      · simp at h3
    · obtain ⟨hc, hm⟩ := mem_ite_nil _ _ _ h
      simp at hm
    · obtain ⟨hc, hm⟩ := mem_ite_nil _ _ _ h
      simp at hm

/-- C7 amended: after "my <name>"/"me <name>" (possession scope active, with
a nonempty residual) the general search visits none of the three exit pools
that are gated on the exit flag — room exits, zone exits, master-room exits;
the carried-exits pool is NOT excluded (see the counterexample).  After
"toward <name>" (an exit scope active) the search visits neither the
possessions pool nor its proxy companion. -/
theorem c7_adjective_exclusivity :
    (∀ (w : World) (gw : Bool) (wher loc : Int) (typ : Nat) (xname : List Char)
      (f : MFlags),
      f.possession = true →
      (isCiPrefix (cs "my ") xname = true ∨ isCiPrefix (cs "me ") xname = true) →
      skipSpaces (pe_adj xname f).1 ≠ [] →
      PoolId.zoneExits ∉ poolSeq w gw wher loc typ (parse_english xname f).2.2 ∧
      PoolId.masterExits ∉ poolSeq w gw wher loc typ (parse_english xname f).2.2 ∧
      PoolId.roomExits ∉ poolSeq w gw wher loc typ (parse_english xname f).2.2) ∧
    (∀ (w : World) (gw : Bool) (wher loc : Int) (typ : Nat) (xname : List Char)
      (f : MFlags),
      (f.exit = true ∨ f.carried_exit = true) →
      isCiPrefix (cs "toward ") xname = true →
      skipSpaces (pe_adj xname f).1 ≠ [] →
      PoolId.possessions ∉ poolSeq w gw wher loc typ (parse_english xname f).2.2 ∧
      PoolId.possessionsGen ∉ poolSeq w gw wher loc typ (parse_english xname f).2.2) := by
  constructor
  · intro w gw wher loc typ xname f hposs hp hne
    rw [parse_english_flags xname f hne]
    exact poolSeq_no_exit_pools w gw wher loc typ _ (pe_adj_my_exit xname f hposs hp)
  · intro w gw wher loc typ xname f hsc hp hne
    rw [parse_english_flags xname f hne]
    obtain ⟨h1, h2⟩ := pe_adj_toward_poss xname f hsc hp
    exact poolSeq_no_possession_pools w gw wher loc typ _ h1 h2

def fl7 : MFlags := { possession := true, carried_exit := true, english := true }

def w7 : World :=
  { trivWorld with
    dbTop := 2
    typeof := fun x => if x = 0 then TYPE_ROOM else if x = 1 then TYPE_EXIT else TYPE_GARBAGE
    name := fun x => if x = 1 then cs "north" else cs "room"
    listFrom := fun s => if s = 1 then [1] else []
    firstExit := fun x => if x = 0 then 1 else -1 }

/-- C7 counterexample: the claim says that after "my <name>" the search never
visits ANY exit pool (room, zone, master-room, or carried exits).  But "my "
does not mask the carried-exit flag: resolving "my north" for a requester in
room 0 (which carries exit 1 named "north") visits the carried-exits pool
and returns the exit. -/
theorem c7_counterexample :
    match_result_internal w7 0 0 (cs "my north") NOTYPE fl7 = 1 ∧
    IsExitB w7 1 = true ∧
    fl7.possession = true ∧
    PoolId.carriedExits ∈
      poolSeq w7 true 0 0 NOTYPE (parse_english (cs "my north") fl7).2.2 := by
  decide

/-- C7 amended witness: the amended statement applied to "my north" /
"toward north" with concrete flags. -/
theorem c7_witness :
    (PoolId.zoneExits ∉ poolSeq w7 true 0 0 NOTYPE (parse_english (cs "my north") fl7).2.2 ∧
     PoolId.masterExits ∉ poolSeq w7 true 0 0 NOTYPE (parse_english (cs "my north") fl7).2.2 ∧
     PoolId.roomExits ∉ poolSeq w7 true 0 0 NOTYPE (parse_english (cs "my north") fl7).2.2) ∧
    (PoolId.possessions ∉
      poolSeq w7 true 0 0 NOTYPE (parse_english (cs "toward north") fl7).2.2 ∧
     PoolId.possessionsGen ∉
      poolSeq w7 true 0 0 NOTYPE (parse_english (cs "toward north") fl7).2.2) :=
  ⟨c7_adjective_exclusivity.1 w7 true 0 0 NOTYPE (cs "my north") fl7 rfl
      (Or.inl (by decide)) (by decide),
   c7_adjective_exclusivity.2 w7 true 0 0 NOTYPE (cs "toward north") fl7
      (Or.inr rfl) (by decide) (by decide)⟩

/-! ### Ordinal (final) mode: the evaluator as a pure counter

With an ordinal target K >= 1 the evaluator never consults the tie-breaker
and never sets `exact`: it counts accepted candidates and stops at the K-th. -/

theorem matched_final (w : World) (full : Bool) (mc : MC) (K : Nat) (hf : mc.final = K)
    (hK : 1 ≤ K) :
    matched w full mc =
      (if ctrlOk w mc.flags mc.who mc.mtch = true then
        (if mc.curr + 1 = K then
          (true, { mc with curr := mc.curr + 1, bestmatch := mc.mtch, done := true })
        else (false, { mc with curr := mc.curr + 1 }))
      else (false, { mc with nocontrol := true })) := by
  unfold matched
  cases hc : ctrlOk w mc.flags mc.who mc.mtch with
  | false => simp [hc]
  | true =>
    have h0 : ¬(K = 0) := by omega
    simp only [hc, Bool.not_true, Bool.false_eq_true, if_false, if_true, hf, h0]

/-- Invariant tying a traversal step in ordinal mode to the list of its
accepted candidates `A`: either the target is still ahead (state keeps
counting, nothing else changes) or the traversal has stopped on the
`(K - curr)`-th accepted candidate. -/
def FinalInv (K : Nat) (mc r : MC) (A : List Int) : Prop :=
  if mc.curr + A.length < K then
    SameStat mc r ∧ r.exact = false ∧ r.done = false ∧
    r.bestmatch = mc.bestmatch ∧ r.curr = mc.curr + A.length
  else r.done = true ∧ A.get? (K - mc.curr - 1) = some r.bestmatch

theorem matchObjLoop_final (w : World) (K : Nat) (hK : 1 ≤ K) :
    ∀ (l : List Int) (mc : MC), mc.final = K → mc.exact = false → mc.done = false →
      GoodObject w mc.bestmatch = false → mc.curr < K →
      FinalInv K mc (matchObjLoop w l mc)
        (l.filter (acceptsF w mc.flags mc.typ mc.who mc.abs mc.name)) := by
  intro l
  induction l with
  | nil =>
    intro mc h6 h7 h8 h9 h10
    unfold FinalInv
    simp only [matchObjLoop, List.filter_nil, List.length_nil, Nat.add_zero]
    rw [if_pos h10]
    exact ⟨sameStat_refl mc, h7, h8, trivial, trivial⟩
  | cons x rest ih =>
    intro mc h6 h7 h8 h9 h10
    simp only [matchObjLoop]
    have hbody : ∀ full : Bool,
        acceptsF w mc.flags mc.typ mc.who mc.abs mc.name x = ctrlOk w mc.flags mc.who x →
        FinalInv K mc
          (if (matched w full { mc with mtch := x }).1 = true then
            (matched w full { mc with mtch := x }).2
          else matchObjLoop w rest (matched w full { mc with mtch := x }).2)
          ((x :: rest).filter (acceptsF w mc.flags mc.typ mc.who mc.abs mc.name)) := by
      intro full heq
      rw [matched_final w full { mc with mtch := x } K h6 hK]
      dsimp only
      cases hc : ctrlOk w mc.flags mc.who x with
      | false =>
        rw [hc] at heq
        simp only [hc, Bool.false_eq_true, if_false]
        simp only [List.filter_cons, heq, Bool.false_eq_true, if_false]
        exact ih { mc with mtch := x, nocontrol := true } h6 h7 h8 h9 h10
      | true =>
        rw [hc] at heq
        simp only [hc, if_true]
        by_cases hcu : mc.curr + 1 = K
        · rw [if_pos hcu]
          unfold FinalInv
          simp only [List.filter_cons, heq, if_true, List.length_cons]
          rw [if_neg (show ¬(mc.curr +
            ((rest.filter (acceptsF w mc.flags mc.typ mc.who mc.abs mc.name)).length + 1) < K)
            from by omega)]
          refine ⟨by trivial, ?_⟩
          rw [show K - mc.curr - 1 = 0 from by omega]
          rfl
        · rw [if_neg hcu]
          show FinalInv K mc
            (matchObjLoop w rest { mc with mtch := x, curr := mc.curr + 1 })
            ((x :: rest).filter (acceptsF w mc.flags mc.typ mc.who mc.abs mc.name))
          have ih2 := ih { mc with mtch := x, curr := mc.curr + 1 } h6 h7 h8 h9
            (show mc.curr + 1 < K by omega)
          unfold FinalInv at ih2 ⊢
          dsimp only at ih2
          simp only [List.filter_cons, heq, if_true, List.length_cons]
          by_cases hlt : mc.curr + 1 +
              (rest.filter (acceptsF w mc.flags mc.typ mc.who mc.abs mc.name)).length < K
          · rw [if_pos (show mc.curr +
              ((rest.filter (acceptsF w mc.flags mc.typ mc.who mc.abs mc.name)).length + 1) < K
              from by omega)]
            rw [if_pos hlt] at ih2
            obtain ⟨hs, he, hd, hb, hcr⟩ := ih2
            refine ⟨sameStat_trans ⟨rfl, rfl, rfl, rfl, rfl, rfl⟩ hs, he, hd, hb, ?_⟩
            rw [hcr]
            omega
          · rw [if_neg (show ¬(mc.curr +
              ((rest.filter (acceptsF w mc.flags mc.typ mc.who mc.abs mc.name)).length + 1) < K)
              from by omega)]
            rw [if_neg hlt] at ih2
            obtain ⟨hd, hg⟩ := ih2
            refine ⟨hd, ?_⟩
            rw [show K - mc.curr - 1 = (K - (mc.curr + 1) - 1) + 1 from by omega,
              List.get?_cons_succ]
            exact hg
    by_cases hT : okType w mc.typ mc.flags x = true
    · rw [if_neg (show ¬((!okType w mc.typ mc.flags x) = true) by simp [hT])]
      by_cases hax : x = mc.abs
      · rw [if_pos hax]
        refine hbody true ?_
        have hdx : decide (x = mc.abs) = true := decide_eq_true hax
        unfold acceptsF
        by_cases hc : ctrlOk w mc.flags mc.who x = true
        · simp [hT, hdx, hc]
        · have hc2 : ctrlOk w mc.flags mc.who x = false := by
            cases hh : ctrlOk w mc.flags mc.who x
            · rfl
            · exact absurd hh hc
          simp [hT, hdx, hc2]
      · rw [if_neg hax]
        by_cases hi : w.canInteract x mc.who = true
        · rw [if_neg (show ¬((!w.canInteract x mc.who) = true) by simp [hi])]
          by_cases hx : exactName w x mc.name = true
          · rw [if_pos hx]
            refine hbody true ?_
            unfold acceptsF
            by_cases hc : ctrlOk w mc.flags mc.who x = true
            · simp [hT, hi, hx, hc]
            · have hc2 : ctrlOk w mc.flags mc.who x = false := by
                cases hh : ctrlOk w mc.flags mc.who x
                · rfl
                · exact absurd hh hc
              simp [hT, hi, hx, hc2]
          · have hx2 : exactName w x mc.name = false := by
              cases hh : exactName w x mc.name
              · rfl
              · exact absurd hh hx
            rw [if_neg hx]
            by_cases hl : (!mc.flags.matExact && (!mc.exact || !GoodObject w mc.bestmatch)
                && looseName w x mc.name) = true
            · rw [if_pos hl]
              have hm : mc.flags.matExact = false := by
                cases hmm : mc.flags.matExact
                · rfl
                · rw [hmm] at hl
                  simp at hl
              have hlo : looseName w x mc.name = true := by
                cases hll : looseName w x mc.name
                · rw [hll] at hl
                  simp at hl
                · rfl
              refine hbody false ?_
              unfold acceptsF
              by_cases hc : ctrlOk w mc.flags mc.who x = true
              · simp [hT, hi, hx2, hm, hlo, hc]
              · have hc2 : ctrlOk w mc.flags mc.who x = false := by
                  cases hh : ctrlOk w mc.flags mc.who x
                  · rfl
                  · exact absurd hh hc
                simp [hT, hi, hx2, hm, hlo, hc2]
            · rw [if_neg hl]
              have haccF : acceptsF w mc.flags mc.typ mc.who mc.abs mc.name x = false := by
                unfold acceptsF
                cases hmm : mc.flags.matExact <;> cases hll : looseName w x mc.name <;>
                  simp_all [hax, hi, hx2]
              simp only [List.filter_cons, haccF, Bool.false_eq_true, if_false]
              exact ih { mc with mtch := x } h6 h7 h8 h9 h10
        · have hi2 : w.canInteract x mc.who = false := by
            cases hh : w.canInteract x mc.who
            · rfl
            · exact absurd hh hi
          rw [if_pos (show (!w.canInteract x mc.who) = true by simp [hi2])]
          have haccF : acceptsF w mc.flags mc.typ mc.who mc.abs mc.name x = false := by
            unfold acceptsF
            simp [hax, hi2]
          simp only [List.filter_cons, haccF, Bool.false_eq_true, if_false]
          exact ih { mc with mtch := x } h6 h7 h8 h9 h10
    · rw [if_pos (show (!okType w mc.typ mc.flags x) = true by
        cases hh : okType w mc.typ mc.flags x
        · simp
        · exact absurd hh hT)]
      have haccF : acceptsF w mc.flags mc.typ mc.who mc.abs mc.name x = false := by
        unfold acceptsF
        cases hh : okType w mc.typ mc.flags x
        · simp
        · exact absurd hh hT
      simp only [List.filter_cons, haccF, Bool.false_eq_true, if_false]
      exact ih { mc with mtch := x } h6 h7 h8 h9 h10

theorem match_attr_helper_done (w : World) (mc : MC) (a : AttrRec) (h : mc.done = true) :
    match_attr_helper w mc a = mc := by
  unfold match_attr_helper
  rw [if_pos h]

theorem attrFold_done (w : World) :
    ∀ (l : List AttrRec) (mc : MC), mc.done = true →
      l.foldl (match_attr_helper w) mc = mc := by
  intro l
  induction l with
  | nil => intro mc _; rfl
  | cons a rest ih =>
    intro mc h
    simp only [List.foldl_cons, match_attr_helper_done w mc a h]
    exact ih mc h

/-- Composing two ordinal-mode traversal legs: the accepted candidates
concatenate, and a stop in the first leg absorbs the second. -/
theorem finalInv_comp (K : Nat) (mc mc1 r : MC) (A1 A2 : List Int)
    (h1 : FinalInv K mc mc1 A1)
    (h2 : SameStat mc mc1 → mc1.exact = false → mc1.done = false →
          mc1.bestmatch = mc.bestmatch → mc1.curr < K → FinalInv K mc1 r A2)
    (hdone : mc1.done = true → r = mc1) :
    FinalInv K mc r (A1 ++ A2) := by
  unfold FinalInv at h1 ⊢
  by_cases hc1 : mc.curr + A1.length < K
  · rw [if_pos hc1] at h1
    obtain ⟨hs, he, hd, hb, hcr⟩ := h1
    have h2' := h2 hs he hd hb (by omega)
    unfold FinalInv at h2'
    by_cases hc2 : mc1.curr + A2.length < K
    · rw [if_pos hc2] at h2'
      obtain ⟨hs2, he2, hd2, hb2, hcr2⟩ := h2'
      rw [if_pos (show mc.curr + (A1 ++ A2).length < K by
        simp only [List.length_append]; omega)]
      refine ⟨sameStat_trans hs hs2, he2, hd2, hb2.trans hb, ?_⟩
      rw [hcr2, hcr]
      simp only [List.length_append]
      omega
    · rw [if_neg hc2] at h2'
      obtain ⟨hd2, hg2⟩ := h2'
      rw [if_neg (show ¬(mc.curr + (A1 ++ A2).length < K) by
        simp only [List.length_append]; omega)]
      refine ⟨hd2, ?_⟩
      rw [List.get?_append_right (by omega : A1.length ≤ K - mc.curr - 1)]
      rw [show K - mc.curr - 1 - A1.length = K - mc1.curr - 1 by omega]
      exact hg2
  · rw [if_neg hc1] at h1
    obtain ⟨hd1, hg1⟩ := h1
    have hr := hdone hd1
    rw [if_neg (show ¬(mc.curr + (A1 ++ A2).length < K) by
      simp only [List.length_append]; omega)]
    subst hr
    refine ⟨hd1, ?_⟩
    obtain ⟨hlen, _⟩ := List.get?_eq_some.mp hg1
    rw [List.get?_append hlen]
    exact hg1

theorem match_attr_helper_final (w : World) (K : Nat) (hK : 1 ≤ K) (mc : MC) (a : AttrRec)
    (h6 : mc.final = K) (h7 : mc.exact = false) (h8 : mc.done = false)
    (h9 : GoodObject w mc.bestmatch = false) (h10 : mc.curr < K) :
    FinalInv K mc (match_attr_helper w mc a)
      (if acceptsAttrF w mc.flags mc.typ mc.who mc.abs mc.name a = true
       then [decodeAttr w a] else []) := by
  have hpre : ∀ (mc2 : MC), SameStat mc mc2 → mc2.exact = false → mc2.done = false →
      mc2.bestmatch = mc.bestmatch → mc2.curr = mc.curr → FinalInv K mc mc2 [] := by
    intro mc2 hs he hd hb hcu
    unfold FinalInv
    simp only [List.length_nil, Nat.add_zero]
    rw [if_pos h10]
    exact ⟨hs, he, hd, hb, hcu⟩
  unfold match_attr_helper
  rw [if_neg (by simp [h8])]
  dsimp only
  by_cases hv : (!RealGoodObject w (decodeAttr w a) || !w.hasGenericFlag (decodeAttr w a))
      = true
  · rw [if_pos hv]
    have hA : acceptsAttrF w mc.flags mc.typ mc.who mc.abs mc.name a = false := by
      unfold acceptsAttrF
      cases hr1 : RealGoodObject w (decodeAttr w a) <;>
        cases hr2 : w.hasGenericFlag (decodeAttr w a) <;> simp_all
    rw [hA]
    simp only [Bool.false_eq_true, if_false]
    exact hpre mc (sameStat_refl mc) h7 h8 rfl rfl
  · rw [if_neg hv]
    by_cases hp : w.parseInteger a.avalue ≤ 0
    · rw [if_pos hp]
      have hA : acceptsAttrF w mc.flags mc.typ mc.who mc.abs mc.name a = false := by
        have hdec : decide (0 < w.parseInteger a.avalue) = false :=
          decide_eq_false (by omega)
        unfold acceptsAttrF
        rw [hdec]
        simp
      rw [hA]
      simp only [Bool.false_eq_true, if_false]
      exact hpre mc (sameStat_refl mc) h7 h8 rfl rfl
    · rw [if_neg hp]
      have hreal : RealGoodObject w (decodeAttr w a) = true ∧
          w.hasGenericFlag (decodeAttr w a) = true := by
        cases hr1 : RealGoodObject w (decodeAttr w a) <;>
          cases hr2 : w.hasGenericFlag (decodeAttr w a) <;> simp_all
      have hdec : decide (0 < w.parseInteger a.avalue) = true := decide_eq_true (by omega)
      have hbody : ∀ full : Bool,
          acceptsF w mc.flags mc.typ mc.who mc.abs mc.name (decodeAttr w a) =
            ctrlOk w mc.flags mc.who (decodeAttr w a) →
          FinalInv K mc ((matched w full { mc with mtch := decodeAttr w a }).2)
            (if acceptsAttrF w mc.flags mc.typ mc.who mc.abs mc.name a = true
             then [decodeAttr w a] else []) := by
        intro full heq
        have hAeq : acceptsAttrF w mc.flags mc.typ mc.who mc.abs mc.name a =
            ctrlOk w mc.flags mc.who (decodeAttr w a) := by
          unfold acceptsAttrF
          rw [hreal.1, hreal.2, hdec, heq]
          simp
        rw [matched_final w full { mc with mtch := decodeAttr w a } K h6 hK]
        dsimp only
        by_cases hc : ctrlOk w mc.flags mc.who (decodeAttr w a) = true
        · have hA : acceptsAttrF w mc.flags mc.typ mc.who mc.abs mc.name a = true :=
            hAeq.trans hc
          rw [if_pos hc, if_pos hA]
          by_cases hcu : mc.curr + 1 = K
          · rw [if_pos hcu]
            unfold FinalInv
            rw [if_neg (show ¬(mc.curr + [decodeAttr w a].length < K) from by
              simp only [List.length_singleton]; omega)]
            refine ⟨by trivial, ?_⟩
            rw [show K - mc.curr - 1 = 0 from by omega]
            rfl
          · rw [if_neg hcu]
            unfold FinalInv
            rw [if_pos (show mc.curr + [decodeAttr w a].length < K from by
              simp only [List.length_singleton]; omega)]
            exact ⟨⟨rfl, rfl, rfl, rfl, rfl, rfl⟩, h7, h8, rfl,
              by simp [List.length_singleton]⟩
        · have hc2 : ctrlOk w mc.flags mc.who (decodeAttr w a) = false := by
            cases hh : ctrlOk w mc.flags mc.who (decodeAttr w a)
            · rfl
            · exact absurd hh hc
          have hA : acceptsAttrF w mc.flags mc.typ mc.who mc.abs mc.name a = false :=
            hAeq.trans hc2
          rw [if_neg hc, hA]
          simp only [Bool.false_eq_true, if_false]
          exact hpre { mc with mtch := decodeAttr w a, nocontrol := true }
            ⟨rfl, rfl, rfl, rfl, rfl, rfl⟩ h7 h8 rfl rfl
      by_cases hT : okType w mc.typ mc.flags (decodeAttr w a) = true
      · rw [if_neg (show ¬((!okType w mc.typ mc.flags (decodeAttr w a)) = true) by
          simp [hT])]
        by_cases hax : decodeAttr w a = mc.abs
        · rw [if_pos hax]
          refine hbody true ?_
          have hdx : decide (decodeAttr w a = mc.abs) = true := decide_eq_true hax
          unfold acceptsF
          by_cases hc : ctrlOk w mc.flags mc.who (decodeAttr w a) = true
          · simp [hT, hdx, hc]
          · have hc2 : ctrlOk w mc.flags mc.who (decodeAttr w a) = false := by
              cases hh : ctrlOk w mc.flags mc.who (decodeAttr w a)
              · rfl
              · exact absurd hh hc
            simp [hT, hdx, hc2]
        · rw [if_neg hax]
          by_cases hi : w.canInteract (decodeAttr w a) mc.who = true
          · rw [if_neg (show ¬((!w.canInteract (decodeAttr w a) mc.who) = true) by
              simp [hi])]
            by_cases hx : exactName w (decodeAttr w a) mc.name = true
            · rw [if_pos hx]
              refine hbody true ?_
              unfold acceptsF
              by_cases hc : ctrlOk w mc.flags mc.who (decodeAttr w a) = true
              · simp [hT, hi, hx, hc]
              · have hc2 : ctrlOk w mc.flags mc.who (decodeAttr w a) = false := by
                  cases hh : ctrlOk w mc.flags mc.who (decodeAttr w a)
                  · rfl
                  · exact absurd hh hc
                simp [hT, hi, hx, hc2]
            · have hx2 : exactName w (decodeAttr w a) mc.name = false := by
                cases hh : exactName w (decodeAttr w a) mc.name
                · rfl
                · exact absurd hh hx
              rw [if_neg hx]
              by_cases hl : (!mc.flags.matExact &&
                  (!mc.exact || !GoodObject w mc.bestmatch) &&
                  looseName w (decodeAttr w a) mc.name) = true
              · rw [if_pos hl]
                have hm : mc.flags.matExact = false := by
                  cases hmm : mc.flags.matExact
                  · rfl
                  · rw [hmm] at hl
                    simp at hl
                have hlo : looseName w (decodeAttr w a) mc.name = true := by
                  cases hll : looseName w (decodeAttr w a) mc.name
                  · rw [hll] at hl
                    simp at hl
                  · rfl
                refine hbody false ?_
                unfold acceptsF
                by_cases hc : ctrlOk w mc.flags mc.who (decodeAttr w a) = true
                · simp [hT, hi, hx2, hm, hlo, hc]
                · have hc2 : ctrlOk w mc.flags mc.who (decodeAttr w a) = false := by
                    cases hh : ctrlOk w mc.flags mc.who (decodeAttr w a)
                    · rfl
                    · exact absurd hh hc
                  simp [hT, hi, hx2, hm, hlo, hc2]
              · rw [if_neg hl]
                have hA : acceptsAttrF w mc.flags mc.typ mc.who mc.abs mc.name a
                    = false := by
                  unfold acceptsAttrF acceptsF
                  cases hmm : mc.flags.matExact <;>
                    cases hll : looseName w (decodeAttr w a) mc.name <;>
                    simp_all [hax, hi, hx2]
                rw [hA]
                simp only [Bool.false_eq_true, if_false]
                exact hpre { mc with mtch := decodeAttr w a }
                  ⟨rfl, rfl, rfl, rfl, rfl, rfl⟩ h7 h8 rfl rfl
          · have hi2 : w.canInteract (decodeAttr w a) mc.who = false := by
              cases hh : w.canInteract (decodeAttr w a) mc.who
              · rfl
              · exact absurd hh hi
            rw [if_pos (show (!w.canInteract (decodeAttr w a) mc.who) = true by
              simp [hi2])]
            have hA : acceptsAttrF w mc.flags mc.typ mc.who mc.abs mc.name a = false := by
              unfold acceptsAttrF acceptsF
              simp [hax, hi2]
            rw [hA]
            simp only [Bool.false_eq_true, if_false]
            exact hpre { mc with mtch := decodeAttr w a }
              ⟨rfl, rfl, rfl, rfl, rfl, rfl⟩ h7 h8 rfl rfl
      · rw [if_pos (show (!okType w mc.typ mc.flags (decodeAttr w a)) = true by
          cases hh : okType w mc.typ mc.flags (decodeAttr w a)
          · simp
          · exact absurd hh hT)]
        have hA : acceptsAttrF w mc.flags mc.typ mc.who mc.abs mc.name a = false := by
          unfold acceptsAttrF acceptsF
          cases hh : okType w mc.typ mc.flags (decodeAttr w a)
          · simp
          · exact absurd hh hT
        rw [hA]
        simp only [Bool.false_eq_true, if_false]
        exact hpre { mc with mtch := decodeAttr w a }
          ⟨rfl, rfl, rfl, rfl, rfl, rfl⟩ h7 h8 rfl rfl

theorem attrFold_final (w : World) (K : Nat) (hK : 1 ≤ K) :
    ∀ (l : List AttrRec) (mc : MC), mc.final = K → mc.exact = false → mc.done = false →
      GoodObject w mc.bestmatch = false → mc.curr < K →
      FinalInv K mc (l.foldl (match_attr_helper w) mc)
        ((l.filter (acceptsAttrF w mc.flags mc.typ mc.who mc.abs mc.name)).map
          (decodeAttr w)) := by
  intro l
  induction l with
  | nil =>
    intro mc h6 h7 h8 h9 h10
    unfold FinalInv
    simp only [List.foldl_nil, List.filter_nil, List.map_nil, List.length_nil, Nat.add_zero]
    rw [if_pos h10]
    exact ⟨sameStat_refl mc, h7, h8, trivial, trivial⟩
  | cons a rest ih =>
    intro mc h6 h7 h8 h9 h10
    simp only [List.foldl_cons]
    have hstep := match_attr_helper_final w K hK mc a h6 h7 h8 h9 h10
    have h2 : SameStat mc (match_attr_helper w mc a) →
        (match_attr_helper w mc a).exact = false →
        (match_attr_helper w mc a).done = false →
        (match_attr_helper w mc a).bestmatch = mc.bestmatch →
        (match_attr_helper w mc a).curr < K →
        FinalInv K (match_attr_helper w mc a)
          (rest.foldl (match_attr_helper w) (match_attr_helper w mc a))
          ((rest.filter (acceptsAttrF w mc.flags mc.typ mc.who mc.abs mc.name)).map
            (decodeAttr w)) := by
      intro hs he hd hb hcu
      have ih2 := ih (match_attr_helper w mc a)
        (by rw [hs.2.2.2.2.2, h6]) he hd (by rw [hb]; exact h9) hcu
      rw [hs.1, hs.2.1, hs.2.2.1, hs.2.2.2.1, hs.2.2.2.2.1] at ih2
      exact ih2
    have hcomp := finalInv_comp K mc (match_attr_helper w mc a)
      (rest.foldl (match_attr_helper w) (match_attr_helper w mc a))
      (if acceptsAttrF w mc.flags mc.typ mc.who mc.abs mc.name a = true
       then [decodeAttr w a] else [])
      ((rest.filter (acceptsAttrF w mc.flags mc.typ mc.who mc.abs mc.name)).map
        (decodeAttr w))
      hstep h2 (fun hd => attrFold_done w rest _ hd)
    by_cases hP : acceptsAttrF w mc.flags mc.typ mc.who mc.abs mc.name a = true
    · rw [if_pos hP] at hcomp
      simp only [List.filter_cons, hP, if_true, List.map_cons]
      exact hcomp
    · rw [if_neg hP] at hcomp
      have hP2 : acceptsAttrF w mc.flags mc.typ mc.who mc.abs mc.name a = false := by
        cases hh : acceptsAttrF w mc.flags mc.typ mc.who mc.abs mc.name a
        · rfl
        · exact absurd hh hP
      simp only [List.filter_cons, hP2, Bool.false_eq_true, if_false]
      exact hcomp

theorem runPool_final (w : World) (K : Nat) (hK : 1 ≤ K) (wher loc : Int) (p : PoolId)
    (mc : MC) (h6 : mc.final = K) (h7 : mc.exact = false) (h8 : mc.done = false)
    (h9 : GoodObject w mc.bestmatch = false) (h10 : mc.curr < K) :
    FinalInv K mc (runPool w wher loc mc p)
      (acceptedOfPool w wher loc mc.flags mc.typ mc.who mc.abs mc.name p) := by
  unfold runPool acceptedOfPool
  cases hpd : poolData w wher loc p with
  | objs l =>
    dsimp only
    unfold match_obj_list
    rw [if_neg (show ¬(mc.done = true) by simp [h8])]
    exact matchObjLoop_final w K hK l mc h6 h7 h8 h9 h10
  | attrs l =>
    dsimp only
    unfold match_attr_list
    rw [if_neg (show ¬(mc.done = true) by simp [h8])]
    exact attrFold_final w K hK l mc h6 h7 h8 h9 h10

theorem runPools_final (w : World) (K : Nat) (hK : 1 ≤ K) (wher loc : Int) :
    ∀ (ps : List PoolId) (mc : MC), mc.final = K → mc.exact = false → mc.done = false →
      GoodObject w mc.bestmatch = false → mc.curr < K →
      FinalInv K mc (runPools w ps wher loc mc)
        (acceptedAll w wher loc mc.flags mc.typ mc.who mc.abs mc.name ps) := by
  intro ps
  induction ps with
  | nil =>
    intro mc h6 h7 h8 h9 h10
    unfold FinalInv acceptedAll
    simp only [runPools, List.foldl_nil, List.map_nil, List.flatten_nil, List.length_nil,
      Nat.add_zero]
    rw [if_pos h10]
    exact ⟨sameStat_refl mc, h7, h8, trivial, trivial⟩
  | cons p ps ih =>
    intro mc h6 h7 h8 h9 h10
    have hrp : runPools w (p :: ps) wher loc mc =
        runPools w ps wher loc (runPool w wher loc mc p) := rfl
    have hacc : acceptedAll w wher loc mc.flags mc.typ mc.who mc.abs mc.name (p :: ps) =
        acceptedOfPool w wher loc mc.flags mc.typ mc.who mc.abs mc.name p ++
        acceptedAll w wher loc mc.flags mc.typ mc.who mc.abs mc.name ps := by
      unfold acceptedAll
      simp [List.map_cons, List.flatten_cons]
    rw [hrp, hacc]
    have hstep := runPool_final w K hK wher loc p mc h6 h7 h8 h9 h10
    refine finalInv_comp K mc (runPool w wher loc mc p) _ _ _ hstep ?_ ?_
    · intro hs he hd hb hcu
      have ih2 := ih (runPool w wher loc mc p)
        (by rw [hs.2.2.2.2.2, h6]) he hd (by rw [hb]; exact h9) hcu
      rw [hs.1, hs.2.1, hs.2.2.1, hs.2.2.2.1, hs.2.2.2.2.1] at ih2
      exact ih2
    · intro hd
      exact runPools_done w ps wher loc _ hd

theorem acceptedAll_good (w : World) (wher loc : Int) (f : MFlags) (ty : Nat)
    (wo ab : Int) (nm : List Char) :
    ∀ (ps : List PoolId), poolsGoodB w wher loc ps = true →
      ∀ x ∈ acceptedAll w wher loc f ty wo ab nm ps, GoodObject w x = true := by
  intro ps
  induction ps with
  | nil =>
    intro _ x hx
    simp [acceptedAll] at hx
  | cons p ps ih =>
    intro hg x hx
    unfold poolsGoodB at hg
    rw [List.all_cons, Bool.and_eq_true] at hg
    have hacc : acceptedAll w wher loc f ty wo ab nm (p :: ps) =
        acceptedOfPool w wher loc f ty wo ab nm p ++
        acceptedAll w wher loc f ty wo ab nm ps := by
      unfold acceptedAll
      simp [List.map_cons, List.flatten_cons]
    rw [hacc, List.mem_append] at hx
    rcases hx with hx | hx
    · unfold acceptedOfPool at hx
      revert hx
      have hg1 := hg.1
      revert hg1
      cases hpd : poolData w wher loc p with
      | objs l =>
        intro hg1 hx
        rw [List.mem_filter] at hx
        rw [List.all_eq_true] at hg1
        exact hg1 x hx.1
      | attrs l =>
        intro _ hx
        rw [List.mem_map] at hx
        obtain ⟨a, ha, hda⟩ := hx
        rw [List.mem_filter] at ha
        have hv := ha.2
        unfold acceptsAttrF at hv
        rw [Bool.and_eq_true, Bool.and_eq_true, Bool.and_eq_true] at hv
        have hreal := hv.1.1.1
        unfold RealGoodObject at hreal
        rw [Bool.and_eq_true] at hreal
        rw [← hda]
        exact hreal.1
    · exact ih hg.2 x hx

/-- C2: with a parsed ordinal target K >= 1, the general search returns
exactly the K-th (1-indexed) accepted candidate of the visited pools in
traversal order when at least K candidates are accepted, and NOTHING when
fewer than K are; the stop latch is set exactly when the K-th candidate is
reached, and once it is set every remaining pool leaves the state untouched
(at most one candidate is ever selected). -/
theorem c2_ordinal_selection (w : World) (gw : Bool) (wher loc : Int) (mc : MC) (K : Nat)
    (hK : 1 ≤ K) (h6 : mc.final = K) (hc : mc.curr = 0) (h7 : mc.exact = false)
    (h8 : mc.done = false) (h9 : GoodObject w mc.bestmatch = false)
    (hg : poolsGoodB w wher loc (poolSeq w gw wher loc mc.typ mc.flags) = true) :
    generalSearch w gw wher loc mc =
      ((acceptedAll w wher loc mc.flags mc.typ mc.who mc.abs mc.name
          (poolSeq w gw wher loc mc.typ mc.flags)).get? (K - 1)).getD NOTHING ∧
    ((acceptedAll w wher loc mc.flags mc.typ mc.who mc.abs mc.name
        (poolSeq w gw wher loc mc.typ mc.flags)).length < K →
      generalSearch w gw wher loc mc = NOTHING) ∧
    (K ≤ (acceptedAll w wher loc mc.flags mc.typ mc.who mc.abs mc.name
        (poolSeq w gw wher loc mc.typ mc.flags)).length →
      (runPools w (poolSeq w gw wher loc mc.typ mc.flags) wher loc mc).done = true) ∧
    (∀ (ps2 : List PoolId) (mcd : MC), mcd.done = true →
      runPools w ps2 wher loc mcd = mcd) := by
  set ps := poolSeq w gw wher loc mc.typ mc.flags with hps
  set L := acceptedAll w wher loc mc.flags mc.typ mc.who mc.abs mc.name ps with hL
  have hfin := runPools_final w K hK wher loc ps mc h6 h7 h8 h9 (by omega)
  rw [← hL] at hfin
  unfold FinalInv at hfin
  rw [hc] at hfin
  set e := runPools w ps wher loc mc with he
  have hstat := runPools_stat w ps wher loc mc
  rw [← he] at hstat
  by_cases hlen : 0 + L.length < K
  · rw [if_pos hlen] at hfin
    obtain ⟨hs, hex, hd, hb, hcr⟩ := hfin
    have hclass : generalSearch w gw wher loc mc = NOTHING := by
      unfold generalSearch
      rw [← hps, ← he]
      unfold classify
      rw [if_pos ?_]
      constructor
      · rw [hb, h9]
        simp
      · rw [hs.2.2.2.2.2, h6]
        omega
    refine ⟨?_, fun _ => hclass, ?_, ?_⟩
    · rw [hclass, List.get?_eq_none.mpr (by omega : L.length ≤ K - 1)]
      rfl
    · intro hKlen
      exact absurd hKlen (by omega)
    · intro ps2 mcd hd2
      exact runPools_done w ps2 wher loc mcd hd2
  · rw [if_neg hlen] at hfin
    obtain ⟨hd, hgth⟩ := hfin
    simp only [Nat.sub_zero] at hgth
    have hgood : GoodObject w e.bestmatch = true := by
      have hmem : e.bestmatch ∈ L := List.get?_mem hgth
      rw [hL] at hmem
      exact acceptedAll_good w wher loc mc.flags mc.typ mc.who mc.abs mc.name ps hg _ hmem
    have hclass : generalSearch w gw wher loc mc = e.bestmatch := by
      unfold generalSearch
      rw [← hps, ← he]
      unfold classify
      rw [if_neg (by rintro ⟨hng, _⟩; exact hng hgood),
        if_neg (by rintro ⟨hf0, _⟩; rw [hstat.2.2.2.2.2, h6] at hf0; omega)]
    refine ⟨?_, ?_, fun _ => hd, ?_⟩
    · rw [hclass, hgth]
      rfl
    · intro hlt
      exact absurd hlt (by omega)
    · intro ps2 mcd hd2
      exact runPools_done w ps2 wher loc mcd hd2

def fl2 : MFlags := { possession := true }

def w2 : World :=
  { trivWorld with
    dbTop := 3
    typeof := fun x => if x = 0 then TYPE_ROOM else TYPE_THING
    name := fun x => if x = 0 then cs "place" else cs "coin"
    firstContents := fun x => if x = 0 then 1 else -1
    listFrom := fun x => if x = 1 then [1, 2] else [] }

def mc2 : MC :=
  { mtch := -1, bestmatch := -1, abs := -1, who := 0, wher := 0, flags := fl2,
    typ := NOTYPE, final := 2, curr := 0, nocontrol := false, right_type := 0,
    exact := false, done := false, name := cs "coin" }

/-- C2 witness: a room holding two things both named "coin"; asking for the
2nd (final = 2) returns dbref 2, the second accepted candidate of the
possessions pool. -/
theorem c2_witness :
    generalSearch w2 true 0 (-1) mc2 = 2 ∧
    acceptedAll w2 0 (-1) mc2.flags mc2.typ mc2.who mc2.abs mc2.name
      (poolSeq w2 true 0 (-1) mc2.typ mc2.flags) = [1, 2] := by
  have h := c2_ordinal_selection w2 true 0 (-1) mc2 2 (by decide) (by decide) (by decide)
    (by decide) (by decide) (by decide) (by decide)
  refine ⟨?_, by decide⟩
  rw [h.1]
  decide

/-! ### The exact-precedence invariant (unranked mode) -/

/-- Once `exact` is set, the best match is a live object that matched the
residual text exactly (by absolute reference or by full name/alias). -/
def ExactInv (w : World) (mc : MC) : Prop :=
  mc.exact = true → GoodObject w mc.bestmatch = true ∧
    (mc.bestmatch = mc.abs ∨ exactName w mc.bestmatch mc.name = true)

theorem matched_false_exact (w : World) (mc : MC) :
    ((matched w false mc).2).exact = mc.exact := by
  unfold matched
  by_cases hctrl : (!ctrlOk w mc.flags mc.who mc.mtch) = true
  · rw [if_pos hctrl]
  · rw [if_neg hctrl]
    by_cases h0 : mc.final = 0
    · rw [if_pos h0]
      simp only [Bool.false_eq_true, if_false]
      split
      · rfl
      · split
        · rfl
        · rfl
    · rw [if_neg h0]
      by_cases hcu : mc.curr + 1 = mc.final
      · rw [if_pos hcu]
      · rw [if_neg hcu]

theorem matched_true_cases (w : World) (mc : MC) (h0 : mc.final = 0) :
    ((matched w true mc).2.bestmatch = mc.bestmatch ∧
      (matched w true mc).2.exact = mc.exact) ∨
    ((matched w true mc).2.bestmatch = mc.mtch ∧ (matched w true mc).2.exact = true) := by
  by_cases hctrl : ctrlOk w mc.flags mc.who mc.mtch = true
  · by_cases hb : choose_thing w mc.who mc.typ mc.flags mc.bestmatch mc.mtch = mc.mtch
    · right
      unfold matched
      rw [if_neg (by simp [hctrl]), if_pos h0]
      by_cases hex : mc.exact = true
      · simp [hb, hex, apply_ite]
      · simp [hb, hex, apply_ite]
    · left
      have hbb : choose_thing w mc.who mc.typ mc.flags mc.bestmatch mc.mtch =
          mc.bestmatch := by
        rcases choose_thing_eq_or w mc.who mc.typ mc.flags mc.bestmatch mc.mtch with h | h
        · exact h
        · exact absurd h hb
      unfold matched
      rw [if_neg (by simp [hctrl]), if_pos h0]
      dsimp only
      rw [if_pos hb]
      exact ⟨hbb, rfl⟩
  · left
    unfold matched
    rw [if_pos (by simp [hctrl])]
    exact ⟨rfl, rfl⟩

theorem matched_exactInv_full (w : World) (mc : MC) (h0 : mc.final = 0)
    (hinv : ExactInv w mc)
    (hm : GoodObject w mc.mtch = true)
    (hnm : mc.mtch = mc.abs ∨ exactName w mc.mtch mc.name = true) :
    ExactInv w (matched w true mc).2 := by
  have hstat := matched_stat w true mc
  rcases matched_true_cases w mc h0 with ⟨hb, he⟩ | ⟨hb, he⟩
  · intro hex
    rw [he] at hex
    have h2 := hinv hex
    rw [hb, hstat.2.2.2.1, hstat.2.2.2.2.1]
    exact h2
  · intro _
    rw [hb, hstat.2.2.2.1, hstat.2.2.2.2.1]
    exact ⟨hm, hnm⟩

theorem matchObjLoop_exactInv (w : World) :
    ∀ (l : List Int) (mc : MC), mc.final = 0 →
      (∀ x ∈ l, GoodObject w x = true) → ExactInv w mc →
      ExactInv w (matchObjLoop w l mc) := by
  intro l
  induction l with
  | nil =>
    intro mc _ _ hinv
    exact hinv
  | cons x rest ih =>
    intro mc h0 hgood hinv
    have hgx : GoodObject w x = true := hgood x (List.mem_cons_self x rest)
    have hgrest : ∀ y ∈ rest, GoodObject w y = true :=
      fun y hy => hgood y (List.mem_cons_of_mem x hy)
    have hrec : ∀ (mc2 : MC), mc2.final = 0 → ExactInv w mc2 →
        ExactInv w (matchObjLoop w rest mc2) :=
      fun mc2 ha hb => ih mc2 ha hgrest hb
    simp only [matchObjLoop]
    have hfull : (x = mc.abs ∨ exactName w x mc.name = true) →
        ExactInv w
          (if (matched w true { mc with mtch := x }).1 = true then
            (matched w true { mc with mtch := x }).2
          else matchObjLoop w rest (matched w true { mc with mtch := x }).2) := by
      intro hnm
      have hmf : ExactInv w (matched w true { mc with mtch := x }).2 :=
        matched_exactInv_full w { mc with mtch := x } h0 hinv hgx hnm
      by_cases hr : (matched w true { mc with mtch := x }).1 = true
      · rw [if_pos hr]
        exact hmf
      · rw [if_neg hr]
        refine hrec _ ?_ hmf
        rw [(matched_stat w true { mc with mtch := x }).2.2.2.2.2]
        exact h0
    by_cases hT : okType w mc.typ mc.flags x = true
    · rw [if_neg (show ¬((!okType w mc.typ mc.flags x) = true) by simp [hT])]
      by_cases hax : x = mc.abs
      · rw [if_pos hax]
        exact hfull (Or.inl hax)
      · rw [if_neg hax]
        by_cases hi : w.canInteract x mc.who = true
        · rw [if_neg (show ¬((!w.canInteract x mc.who) = true) by simp [hi])]
          by_cases hx : exactName w x mc.name = true
          · rw [if_pos hx]
            exact hfull (Or.inr hx)
          · rw [if_neg hx]
            by_cases hl : (!mc.flags.matExact && (!mc.exact || !GoodObject w mc.bestmatch)
                && looseName w x mc.name) = true
            · rw [if_pos hl]
              have hexf : mc.exact = false := by
                cases hh : mc.exact
                · rfl
                · exfalso
                  have hgb := (hinv hh).1
                  rw [hh, hgb] at hl
                  simp at hl
              have hmf : ExactInv w (matched w false { mc with mtch := x }).2 := by
                intro hex
                rw [matched_false_exact] at hex
                rw [show ({ mc with mtch := x } : MC).exact = mc.exact from rfl,
                  hexf] at hex
                exact absurd hex (by simp)
              by_cases hr : (matched w false { mc with mtch := x }).1 = true
              · rw [if_pos hr]
                exact hmf
              · rw [if_neg hr]
                refine hrec _ ?_ hmf
                rw [(matched_stat w false { mc with mtch := x }).2.2.2.2.2]
                exact h0
            · rw [if_neg hl]
              exact hrec { mc with mtch := x } h0 hinv
        · rw [if_pos (show (!w.canInteract x mc.who) = true by
            cases hh : w.canInteract x mc.who
            · simp
            · exact absurd hh hi)]
          exact hrec { mc with mtch := x } h0 hinv
    · rw [if_pos (show (!okType w mc.typ mc.flags x) = true by
        cases hh : okType w mc.typ mc.flags x
        · simp
        · exact absurd hh hT)]
      exact hrec { mc with mtch := x } h0 hinv

theorem match_attr_helper_exactInv (w : World) (mc : MC) (a : AttrRec)
    (h0 : mc.final = 0) (hinv : ExactInv w mc) :
    ExactInv w (match_attr_helper w mc a) := by
  simp only [match_attr_helper]
  by_cases hd : mc.done = true
  · rw [if_pos hd]
    exact hinv
  · rw [if_neg hd]
    by_cases hrg : (!RealGoodObject w (decodeAttr w a)
        || !w.hasGenericFlag (decodeAttr w a)) = true
    · rw [if_pos hrg]
      exact hinv
    · rw [if_neg hrg]
      by_cases hn : w.parseInteger a.avalue ≤ 0
      · rw [if_pos hn]
        exact hinv
      · rw [if_neg hn]
        have hgood : GoodObject w (decodeAttr w a) = true := by
          have hreal : RealGoodObject w (decodeAttr w a) = true := by
            cases hh : RealGoodObject w (decodeAttr w a)
            · rw [hh] at hrg
              simp at hrg
            · rfl
          unfold RealGoodObject at hreal
          rw [Bool.and_eq_true] at hreal
          exact hreal.1
        by_cases hT : okType w mc.typ mc.flags (decodeAttr w a) = true
        · rw [if_neg (show ¬((!okType w mc.typ mc.flags (decodeAttr w a)) = true) by
            simp [hT])]
          by_cases hax : decodeAttr w a = mc.abs
          · rw [if_pos hax]
            exact matched_exactInv_full w { mc with mtch := decodeAttr w a } h0 hinv
              hgood (Or.inl hax)
          · rw [if_neg hax]
            by_cases hi : w.canInteract (decodeAttr w a) mc.who = true
            · rw [if_neg (show ¬((!w.canInteract (decodeAttr w a) mc.who) = true) by
                simp [hi])]
              by_cases hx : exactName w (decodeAttr w a) mc.name = true
              · rw [if_pos hx]
                exact matched_exactInv_full w { mc with mtch := decodeAttr w a } h0 hinv
                  hgood (Or.inr hx)
              · rw [if_neg hx]
                by_cases hl : (!mc.flags.matExact
                    && (!mc.exact || !GoodObject w mc.bestmatch)
                    && looseName w (decodeAttr w a) mc.name) = true
                · rw [if_pos hl]
                  have hexf : mc.exact = false := by
                    cases hh : mc.exact
                    · rfl
                    · exfalso
                      have hgb := (hinv hh).1
                      rw [hh, hgb] at hl
                      simp at hl
                  intro hex
                  rw [matched_false_exact] at hex
                  rw [show ({ mc with mtch := decodeAttr w a } : MC).exact = mc.exact
                    from rfl, hexf] at hex
                  exact absurd hex (by simp)
                · rw [if_neg hl]
                  exact hinv
            · rw [if_pos (show (!w.canInteract (decodeAttr w a) mc.who) = true by
                cases hh : w.canInteract (decodeAttr w a) mc.who
                · simp
                · exact absurd hh hi)]
              exact hinv
        · rw [if_pos (show (!okType w mc.typ mc.flags (decodeAttr w a)) = true by
            cases hh : okType w mc.typ mc.flags (decodeAttr w a)
            · simp
            · exact absurd hh hT)]
          exact hinv

theorem attrFold_exactInv (w : World) :
    ∀ (l : List AttrRec) (mc : MC), mc.final = 0 → ExactInv w mc →
      ExactInv w (l.foldl (match_attr_helper w) mc) := by
  intro l
  induction l with
  | nil =>
    intro mc _ h
    exact h
  | cons a rest ih =>
    intro mc h0 hinv
    simp only [List.foldl_cons]
    refine ih _ ?_ (match_attr_helper_exactInv w mc a h0 hinv)
    rw [(match_attr_helper_stat w mc a).2.2.2.2.2]
    exact h0

theorem runPool_exactInv (w : World) (wher loc : Int) (p : PoolId) (mc : MC)
    (h0 : mc.final = 0)
    (hg : (match poolData w wher loc p with
           | .objs l => l.all (fun x => GoodObject w x)
           | .attrs _ => true) = true)
    (hinv : ExactInv w mc) :
    ExactInv w (runPool w wher loc mc p) := by
  unfold runPool
  revert hg
  cases hpd : poolData w wher loc p with
  | objs l =>
    intro hg
    have hg2 : l.all (fun x => GoodObject w x) = true := hg
    dsimp only
    unfold match_obj_list
    by_cases hd : mc.done = true
    · rw [if_pos hd]
      exact hinv
    · rw [if_neg hd]
      refine matchObjLoop_exactInv w l mc h0 ?_ hinv
      intro x hx
      rw [List.all_eq_true] at hg2
      exact hg2 x hx
  | attrs l =>
    intro _
    dsimp only
    unfold match_attr_list
    by_cases hd : mc.done = true
    · rw [if_pos hd]
      exact hinv
    · rw [if_neg hd]
      exact attrFold_exactInv w l mc h0 hinv

theorem runPools_exactInv (w : World) (wher loc : Int) :
    ∀ (ps : List PoolId) (mc : MC), mc.final = 0 →
      poolsGoodB w wher loc ps = true → ExactInv w mc →
      ExactInv w (runPools w ps wher loc mc) := by
  intro ps
  induction ps with
  | nil =>
    intro mc _ _ h
    exact h
  | cons p ps ih =>
    intro mc h0 hg hinv
    unfold poolsGoodB at hg
    rw [List.all_cons, Bool.and_eq_true] at hg
    have hstep := runPool_exactInv w wher loc p mc h0 hg.1 hinv
    have hrp : runPools w (p :: ps) wher loc mc =
        runPools w ps wher loc (runPool w wher loc mc p) := rfl
    rw [hrp]
    refine ih _ ?_ hg.2 hstep
    rw [(runPool_stat w wher loc mc p).2.2.2.2.2]
    exact h0

/-- C1: in unranked mode (no ordinal target), starting from a state with no
exact match yet, (a) the moment the first exact match is recorded — controls
pass, the tie-break keeps the new candidate, `exact` was still unset — the
partial-match counter is reset to 1 and the preferred-type counter to 0 (the
newly recorded exact match itself then contributing its own type tick), both
independent of the counts accumulated before; and (b) whenever the traversal
ends with an exact match recorded, the returned result is AMBIGUOUS or a live
object that matched the residual exactly (by absolute reference or full
name/alias) — never a purely-partial (substring) match. -/
theorem c1_exact_precedence (w : World) (gw : Bool) (wher loc : Int) (mc : MC)
    (h0 : mc.final = 0) (hex0 : mc.exact = false)
    (hg : poolsGoodB w wher loc (poolSeq w gw wher loc mc.typ mc.flags) = true) :
    (∀ (mc2 : MC), mc2.final = 0 → mc2.exact = false →
      ctrlOk w mc2.flags mc2.who mc2.mtch = true →
      choose_thing w mc2.who mc2.typ mc2.flags mc2.bestmatch mc2.mtch = mc2.mtch →
      (matched w true mc2).2.curr = 1 ∧
      (matched w true mc2).2.exact = true ∧
      (matched w true mc2).2.right_type =
        (if mc2.typ ≠ NOTYPE ∧ w.typeof mc2.mtch &&& mc2.typ ≠ 0 then 1 else 0)) ∧
    ((runPools w (poolSeq w gw wher loc mc.typ mc.flags) wher loc mc).exact = true →
      generalSearch w gw wher loc mc = AMBIGUOUS ∨
      (GoodObject w (generalSearch w gw wher loc mc) = true ∧
        (generalSearch w gw wher loc mc = mc.abs ∨
         exactName w (generalSearch w gw wher loc mc) mc.name = true))) := by
  constructor
  · intro mc2 h02 hex2 hctrl2 hch2
    rw [matched_record w mc2 h02 hctrl2 hch2 hex2]
    by_cases hty : mc2.typ ≠ NOTYPE ∧ w.typeof mc2.mtch &&& mc2.typ ≠ 0
    · rw [if_pos hty, if_pos hty]
      exact ⟨rfl, rfl, rfl⟩
    · rw [if_neg hty, if_neg hty]
      exact ⟨rfl, rfl, rfl⟩
  · set ps := poolSeq w gw wher loc mc.typ mc.flags with hps
    set e := runPools w ps wher loc mc with he
    intro hex
    have hinv : ExactInv w mc := fun hx => absurd hx (by simp [hex0])
    have hie : ExactInv w e := runPools_exactInv w wher loc ps mc h0 hg hinv
    have h2 := hie hex
    have hstat := runPools_stat w ps wher loc mc
    rw [← he] at hstat
    have hgen : generalSearch w gw wher loc mc = classify w mc.flags e := by
      unfold generalSearch
      rw [← hps, ← he]
    have hcls : classify w mc.flags e = AMBIGUOUS ∨ classify w mc.flags e = e.bestmatch := by
      unfold classify
      rw [if_neg (by rintro ⟨hng, _⟩; exact hng h2.1)]
      by_cases hc : e.final = 0 ∧ e.curr > 1
      · rw [if_pos hc]
        by_cases hr : e.right_type ≠ 1 ∧ ¬mc.flags.last
        · rw [if_pos hr]
          left
          rfl
        · rw [if_neg hr]
          right
          rfl
      · rw [if_neg hc]
        right
        rfl
    rcases hcls with hA | hB
    · left
      rw [hgen, hA]
    · right
      rw [hgen, hB]
      refine ⟨h2.1, ?_⟩
      rcases h2.2 with h | h
      · left
        rw [h, hstat.2.2.2.1]
      · right
        rw [← hstat.2.2.2.2.1]
        exact h

def flC1 : MFlags := { possession := true }

def wC1 : World :=
  { trivWorld with
    dbTop := 3
    typeof := fun x => if x = 0 then TYPE_ROOM else TYPE_THING
    name := fun x => if x = 0 then cs "place" else if x = 1 then cs "apple pie"
      else cs "apple"
    stringMatch := fun nm txt => ciEq (nm.take txt.length) txt
    firstContents := fun x => if x = 0 then 1 else -1
    listFrom := fun x => if x = 1 then [1, 2] else [] }

def mcC1 : MC :=
  { mtch := -1, bestmatch := -1, abs := -1, who := 0, wher := 0, flags := flC1,
    typ := NOTYPE, final := 0, curr := 0, nocontrol := false, right_type := 0,
    exact := false, done := false, name := cs "apple" }

def mcC1r : MC :=
  { mcC1 with mtch := 2, bestmatch := 1, curr := 5, right_type := 3 }

/-- C1 witness: "apple pie" partially matches the text "apple" and is seen
first, then "apple" matches exactly; the resolver returns the exact match
(dbref 2), and recording it from a state with five prior partials and three
prior type ticks resets the counters to 1 and 0 (the new match has the
trivial type filter, so no tick of its own). -/
theorem c1_witness :
    generalSearch wC1 true 0 (-1) mcC1 = 2 ∧
    looseName wC1 1 (cs "apple") = true ∧
    exactName wC1 2 (cs "apple") = true ∧
    GoodObject wC1 (generalSearch wC1 true 0 (-1) mcC1) = true ∧
    exactName wC1 (generalSearch wC1 true 0 (-1) mcC1) mcC1.name = true ∧
    (matched wC1 true mcC1r).2.curr = 1 ∧
    (matched wC1 true mcC1r).2.exact = true ∧
    (matched wC1 true mcC1r).2.right_type = 0 := by
  have h := c1_exact_precedence wC1 true 0 (-1) mcC1 (by decide) (by decide) (by decide)
  have ha := h.1 mcC1r (by decide) (by decide) (by decide) (by decide)
  have hb := h.2 (by decide)
  rcases hb with hA | hB
  · exact absurd hA (by decide)
  · refine ⟨by decide, by decide, by decide, hB.1, ?_, ha.1, ha.2.1, ?_⟩
    · rcases hB.2 with h1 | h1
      · exact absurd h1 (by decide)
      · exact h1
    · rw [ha.2.2]
      decide

/-- C3: in unranked mode, when the running match count after the traversal
exceeds 1, the result is AMBIGUOUS — unless exactly one counted match had a
type intersecting the (non-trivial) type filter, or the prefer-last flag was
requested, in which case the current best candidate stands. -/
theorem c3_tie_break (w : World) (gw : Bool) (wher loc : Int) (mc : MC)
    (h0 : mc.final = 0)
    (hc : 1 < (runPools w (poolSeq w gw wher loc mc.typ mc.flags) wher loc mc).curr) :
    ((runPools w (poolSeq w gw wher loc mc.typ mc.flags) wher loc mc).right_type ≠ 1 →
      mc.flags.last = false →
      generalSearch w gw wher loc mc = AMBIGUOUS) ∧
    ((runPools w (poolSeq w gw wher loc mc.typ mc.flags) wher loc mc).right_type = 1 →
      generalSearch w gw wher loc mc =
        (runPools w (poolSeq w gw wher loc mc.typ mc.flags) wher loc mc).bestmatch) ∧
    (mc.flags.last = true →
      generalSearch w gw wher loc mc =
        (runPools w (poolSeq w gw wher loc mc.typ mc.flags) wher loc mc).bestmatch) := by
  set ps := poolSeq w gw wher loc mc.typ mc.flags with hps
  set e := runPools w ps wher loc mc with he
  have hstat := runPools_stat w ps wher loc mc
  rw [← he] at hstat
  have hf : e.final = 0 := by rw [hstat.2.2.2.2.2, h0]
  have hgen : generalSearch w gw wher loc mc =
      if e.right_type ≠ 1 ∧ ¬mc.flags.last then AMBIGUOUS else e.bestmatch := by
    unfold generalSearch
    rw [← hps, ← he]
    unfold classify
    rw [if_neg (by rintro ⟨_, hf2⟩; exact hf2 hf), if_pos ⟨hf, hc⟩]
  refine ⟨?_, ?_, ?_⟩
  · intro h1 h2
    rw [hgen, if_pos ⟨h1, by simp [h2]⟩]
  · intro h1
    rw [hgen, if_neg (by rintro ⟨h2, _⟩; exact h2 h1)]
  · intro h1
    rw [hgen, if_neg (by rintro ⟨_, h2⟩; exact h2 (by simp [h1]))]

def mcC3 : MC :=
  { mtch := -1, bestmatch := -1, abs := -1, who := 0, wher := 0, flags := fl2,
    typ := NOTYPE, final := 0, curr := 0, nocontrol := false, right_type := 0,
    exact := false, done := false, name := cs "coin" }

/-- C3 witness: the two-coins room in unranked mode; both coins match the
text "coin" exactly, the count after traversal is 2, no type filter is
active and the prefer-last flag is off, so the resolution is AMBIGUOUS. -/
theorem c3_witness :
    generalSearch w2 true 0 (-1) mcC3 = AMBIGUOUS := by
  have h := c3_tie_break w2 true 0 (-1) mcC3 (by decide) (by decide)
  exact h.1 (by decide) (by decide)

/-! ## Claim C8 -/

/-- C8 amended: during proxy enumeration an attribute whose decoded priority
is not positive is ignored, and only attributes whose decoded id names a
live entity carrying the GENERIC thing flag are considered; beyond the
positivity test the priority value plays no further role — each valid
positive-priority attribute is an independent candidate, so the helper's
behaviour is unchanged under replacing the priority by any other positive
value (and several proxies decoding to the same entity each count; see the
counterexample against the per-entity highest-priority reading). -/
theorem c8_proxy_validity :
    (∀ (w : World) (mc : MC) (a : AttrRec),
      w.parseInteger a.avalue ≤ 0 → match_attr_helper w mc a = mc) ∧
    (∀ (w : World) (mc : MC) (a : AttrRec),
      ¬(RealGoodObject w (decodeAttr w a) = true ∧
        w.hasGenericFlag (decodeAttr w a) = true) →
      match_attr_helper w mc a = mc) ∧
    (∀ (w : World) (mc : MC) (a : AttrRec) (v : List Char),
      0 < w.parseInteger a.avalue → 0 < w.parseInteger v →
      match_attr_helper w mc { a with avalue := v } = match_attr_helper w mc a) := by
  refine ⟨?_, ?_, ?_⟩
  · intro w mc a hprio
    unfold match_attr_helper
    dsimp only
    repeat' split
    all_goals rfl
  · intro w mc a hval
    unfold match_attr_helper
    dsimp only
    repeat' split
    all_goals first | rfl | simp_all
  · intro w mc a v ha hv
    unfold match_attr_helper decodeAttr afterTick
    dsimp only
    rw [if_neg (show ¬(w.parseInteger v ≤ 0) by omega),
      if_neg (show ¬(w.parseInteger a.avalue ≤ 0) by omega)]

def fl8 : MFlags := { possession := true }

def w8b : World :=
  { trivWorld with
    dbTop := 2
    typeof := fun x => if x = 0 then TYPE_ROOM else TYPE_THING
    name := fun x => if x = 1 then cs "rock" else cs "room"
    parseDbref := fun s => if s = cs "1" ∨ s = cs "01" then 1 else -1
    parseInteger := fun s => if s = cs "2" then 2 else if s = cs "1" then 1 else 0
    hasGenericFlag := fun x => x = 1
    genericAttrs := fun x =>
      if x = 0 then [{ aname := cs "GENERIC`1", avalue := cs "2" }] else [] }

def w8 : World :=
  { w8b with
    genericAttrs := fun x =>
      if x = 0 then
        [{ aname := cs "GENERIC`1", avalue := cs "2" },
         { aname := cs "GENERIC`01", avalue := cs "1" }]
      else [] }

/-- C8 counterexample: two proxy attributes decode to the same live GENERIC
entity 1 with priorities 2 and 1 ("GENERIC`1" and "GENERIC`01": parse_dbref
reads both id spellings as 1).  The code never compares the priorities: the
lower-priority proxy is still counted, turning the unique match of the
one-attribute world into AMBIGUOUS — so it is not the case that only the
highest-priority valid proxy per underlying entity is meaningful. -/
theorem c8_counterexample :
    match_result_internal w8 0 0 (cs "rock") NOTYPE fl8 = AMBIGUOUS ∧
    match_result_internal w8b 0 0 (cs "rock") NOTYPE fl8 = 1 ∧
    decodeAttr w8 { aname := cs "GENERIC`1", avalue := cs "2" } = 1 ∧
    decodeAttr w8 { aname := cs "GENERIC`01", avalue := cs "1" } = 1 ∧
    w8.parseInteger (cs "2") = 2 ∧ w8.parseInteger (cs "1") = 1 := by
  decide

def mc8 : MC :=
  { mtch := -1, bestmatch := -1, abs := -1, who := 0, wher := 0, flags := fl8,
    typ := NOTYPE, final := 0, curr := 0, nocontrol := false, right_type := 0,
    exact := false, done := false, name := cs "rock" }

/-- C8 amended witness: a nonpositive-priority attribute is ignored, and
replacing a positive priority by another positive priority does not change
the helper's behaviour. -/
theorem c8_witness :
    match_attr_helper w8 mc8 { aname := cs "GENERIC`1", avalue := cs "zz" } = mc8 ∧
    match_attr_helper w8 mc8 { aname := cs "GENERIC`1", avalue := cs "1" } =
      match_attr_helper w8 mc8 { aname := cs "GENERIC`1", avalue := cs "2" } :=
  ⟨c8_proxy_validity.1 w8 mc8 { aname := cs "GENERIC`1", avalue := cs "zz" } (by decide),
   c8_proxy_validity.2.2 w8 mc8 { aname := cs "GENERIC`1", avalue := cs "2" } (cs "1")
     (by decide) (by decide)⟩

end PennMatch
